/-
  Verification of the SMVK-import merge engine (Wikimedia-Sverige/SMVK-import).

  Shallow embedding of:
    * smvk/mergeFiles.py   — candidate matching, duplicate resolution, field merge,
                             archive-card reconciliation (merge_data and helpers);
    * csvParser.py         — schema-mapped loading / serialization (base_load_data,
                             base_output_data, the two schemas);
    * smvk_utils.py        — relabel_inner_dicts, invert_dict.

  Python records are dictionaries from field name to either a string or a list of
  strings; they are modelled as insertion-ordered association lists with the
  update-in-place / append-at-end semantics of CPython dicts.
-/
import Mathlib

namespace SMVK

/-- A cell value of a data record: Python `str` or `list` of `str`. -/
inductive Value where
  | str (s : String)
  | vlist (l : List String)
deriving DecidableEq, Repr

/-- Python truthiness of a record value (`bool(v)`). -/
def Value.truthy : Value → Bool
  | .str s => s != ""
  | .vlist l => !l.isEmpty

/-- A Python dict with string keys: insertion-ordered association list.
All operations below preserve CPython dict semantics (unique keys, assignment
to an existing key keeps its position, a fresh key is appended at the end). -/
abbrev Dict (α : Type) : Type := List (String × α)

/-- `d.get(k)`: first binding of `k`, if any. -/
def dictGet? {α : Type} : Dict α → String → Option α
  | [], _ => none
  | (k', v) :: rest, k => if k' = k then some v else dictGet? rest k

/-- `d[k] = v`: replace the first binding of `k` in place, else append. -/
def dictInsert {α : Type} : Dict α → String → α → Dict α
  | [], k, v => [(k, v)]
  | (k', v') :: rest, k, v =>
      if k' = k then (k, v) :: rest else (k', v') :: dictInsert rest k v

/-- `d.pop(k)`: remove the first binding of `k` (no-op when absent). -/
def dictPop {α : Type} : Dict α → String → Dict α
  | [], _ => []
  | (k', v') :: rest, k => if k' = k then rest else (k', v') :: dictPop rest k

def dictKeys {α : Type} (d : Dict α) : List String := d.map Prod.fst

def dictValues {α : Type} (d : Dict α) : List α := d.map Prod.snd

def dictContains {α : Type} (d : Dict α) (k : String) : Bool :=
  (dictGet? d k).isSome

/-- A main-data record / archive-card record: field name ↦ value. -/
abbrev Record : Type := Dict Value

/-- Python truthiness of `record.get(field)` (`None` is falsy). -/
def truthyO : Option Value → Bool
  | none => false
  | some v => v.truthy

/-- Read a field expected to hold a scalar string.  In the source the raw object
is used directly; every record produced by the loader stores `photo_id`,
`db_id`, `museum_obj` as strings, so a missing or non-string field (falsy
`None` in Python) is rendered as `""` here, which is falsy as well. -/
def getS (r : Record) (k : String) : String :=
  match dictGet? r k with
  | some (.str s) => s
  | _ => ""

/-- Python `str()` of a record value, as interpolated by `'{}'.format(...)`. -/
def pyStr : Option Value → String
  | none => "None"
  | some (.str s) => s
  | some (.vlist l) =>
      "[" ++ String.intercalate ", "
        (l.map (fun s => String.singleton (Char.ofNat 39) ++ s ++ String.singleton (Char.ofNat 39)))
      ++ "]"

/-- `'{}/{}'.format(entry.get('museum_obj'), entry.get('db_id'))`
(mergeFiles.py lines 115-116, 129, 151-152, 199-200). -/
def longId (r : Record) : String :=
  pyStr (dictGet? r "museum_obj") ++ "/" ++ pyStr (dictGet? r "db_id")

/-- The `ext_ids` list of a record (the schema marks it list-valued). -/
def extIdsOf (r : Record) : List String :=
  match dictGet? r "ext_ids" with
  | some (.vlist l) => l
  | _ => []

/-- The ephemeral candidate descriptor built by `populate_candidates`
(mergeFiles.py lines 113-118). -/
structure Candidate where
  origPhotoId : String
  origLongId : String
  dupePhotoId : Option String
  dupeLongId : Option String
deriving DecidableEq, Repr

/-- The candidate registered for one `ext_id` of one primary record:
`base_info.copy()` followed by `candidates[ext_id]['dupe_long_id'] = ext_id`
(mergeFiles.py lines 121-123). -/
def mkCandidate (entry : Record) (ext_id : String) : Candidate :=
  { origPhotoId := getS entry "photo_id"
    origLongId := longId entry
    dupePhotoId := none
    dupeLongId := some ext_id }

/-- `populate_candidates` (mergeFiles.py lines 107-124): for every primary
record with a truthy `ext_ids`, register each external id, later records
overwriting earlier claims of the same id. -/
def populate_candidates (data : Dict Record) : Dict Candidate :=
  (dictValues data).foldl
    (fun cands entry =>
      if truthyO (dictGet? entry "ext_ids") then
        (extIdsOf entry).foldl
          (fun cs ext_id => dictInsert cs ext_id (mkCandidate entry ext_id)) cands
      else cands)
    []

/-- `identify_dupe_id` (mergeFiles.py lines 127-136).  Returns the value the
Python function returns (`candidate.get('orig_photo_id')`, `None` on a miss)
together with the updated candidate index and duplicate mapping. -/
def identify_dupe_id (entry : Record) (candidates duplicates : Dict Candidate) :
    Option String × Dict Candidate × Dict Candidate :=
  let long_id := longId entry
  match dictGet? candidates long_id with
  | some candidate =>
      let candidates' := dictPop candidates long_id
      let candidate' := { candidate with dupePhotoId := some (getS entry "photo_id") }
      let duplicates' := dictInsert duplicates (getS entry "photo_id") candidate'
      (some candidate'.origPhotoId, candidates', duplicates')
  | none => (none, candidates, duplicates)

/-- What one iteration of the field loop of `merge_dupe` (lines 158-195) does
to `orig_entry[field]`.  `adopt` is the `elif not orig_value` branch, which in
Python assigns the very object held by the dupe record (relevant for the
later in-place mutation of `ext_ids`); `resolve` assigns a freshly built
value; `skip` leaves the field alone. -/
inductive FieldAction where
  | skip
  | adopt (v : Value)
  | resolve (v : Value)
deriving DecidableEq, Repr

/-- Python whitespace stripped by `str.strip()` (ASCII part). -/
def isPySpace (c : Char) : Bool :=
  c = ' ' || c = '\t' || c = '\n' || c = '\r' || c = Char.ofNat 11 || c = Char.ofNat 12

def isSpaceDot (c : Char) : Bool := c = ' ' || c = '.'

/-- `s.strip()`. -/
def pyStrip (s : String) : String :=
  String.mk (((s.data.dropWhile isPySpace).reverse.dropWhile isPySpace).reverse)

/-- `s.rstrip(' .')`. -/
def rstripSpaceDot (s : String) : String :=
  String.mk ((s.data.reverse.dropWhile isSpaceDot).reverse)

/-- `s.lstrip(' .')`. -/
def lstripSpaceDot (s : String) : String :=
  String.mk (s.data.dropWhile isSpaceDot)

/-- `'{}. {}'.format(orig.rstrip(' .'), dupe).lstrip(' .')`
(mergeFiles.py lines 193-195). -/
def concatTexts (orig dupe : String) : String :=
  lstripSpaceDot (rstripSpaceDot orig ++ ". " ++ dupe)

/-- The per-field merge policy of `merge_dupe` (mergeFiles.py lines 158-195),
with `orig_value = orig_entry.get(field)`.  The `list(set(a + b))` of the
list branch iterates a hash set, so the source leaves the result order
unspecified; it is modelled canonically with `List.dedup` (same membership,
no duplicates).  The two `.skip` fallbacks of the `license` and generic
branches are states where the source raises `TypeError`/`AttributeError`
(mixing a scalar with a list); they are unreachable for schema-typed records. -/
def merge_field (field : String) (orig_value : Option Value) (dupe_value : Value) :
    FieldAction :=
  if !dupe_value.truthy || orig_value = some dupe_value then .skip
  else if !truthyO orig_value then .adopt dupe_value
  else if field = "photo_id" || field = "db_id" || field = "museum_obj" then .skip
  else if field = "date" then .skip
  else if field = "license" then
    match orig_value, dupe_value with
    | some (.str o), .str d =>
        if (o = "PD" && d = "cc0") || (o = "cc0" && d = "PD") then .resolve (.str "PD")
        else .resolve (.str (o ++ "/" ++ d))
    | _, _ => .skip
  else
    match orig_value, dupe_value with
    | some (.vlist o), .vlist d => .resolve (.vlist ((o ++ d).dedup))
    | some (.str o), .str d =>
        if pyStrip o ≠ pyStrip d then .resolve (.str (concatTexts o d)) else .skip
    | _, _ => .skip

/-- The value of `orig_entry[field]` after a `FieldAction` has been applied
to a field that previously held `dflt`. -/
def actionResult (a : FieldAction) (dflt : Option Value) : Option Value :=
  match a with
  | .skip => dflt
  | .adopt v => some v
  | .resolve v => some v

/-- One step of `for field, dupe_value in dupe_entry.items()`: the accumulator
is the primary record plus a flag recording whether `orig_entry['ext_ids']`
now holds the same list object as the dupe record (the `adopt` branch). -/
def merge_dupe_fields (acc : Record × Bool) (fv : String × Value) : Record × Bool :=
  match merge_field fv.1 (dictGet? acc.1 fv.1) fv.2 with
  | .skip => acc
  | .adopt v => (dictInsert acc.1 fv.1 v, acc.2 || (fv.1 == "ext_ids"))
  | .resolve v => (dictInsert acc.1 fv.1 v, acc.2)

/-- Remove the first occurrence (`list.remove`, the caught `ValueError`
making the absent case a no-op). -/
def removeFirst : List String → String → List String
  | [], _ => []
  | a :: rest, x => if a = x then rest else a :: removeFirst rest x

/-- Lines 149-155 of `merge_dupe`: remove the primary's long id from the
dupe's `ext_ids` (`ValueError`, i.e. the id being absent, is swallowed).
The fallback arm is the state where the source raises `AttributeError`
(`ext_ids` missing or scalar); unreachable for schema-typed records. -/
def strip_orig_long_id (orig_entry dupe_entry : Record) : Record :=
  match dictGet? dupe_entry "ext_ids" with
  | some (.vlist l) =>
      dictInsert dupe_entry "ext_ids" (.vlist (removeFirst l (longId orig_entry)))
  | _ => dupe_entry

/-- Lines 197-207 of `merge_dupe`: remove the dupe's long id from the merged
`ext_ids` and re-append it suffixed with the label delimiter and the dupe's
photo id; a `ValueError` from `remove` skips the append as well.  When the
field loop adopted the dupe's `ext_ids` object into the primary (`aliased`),
the in-place `remove`/`append` is visible through the dupe record too,
exactly as in CPython. -/
def finish_ext_ids (orig1 dupe1 : Record) (aliased : Bool) (label_delimiter : String) :
    Record × Record :=
  let dupe_long_id := longId dupe1
  match dictGet? orig1 "ext_ids" with
  | some (.vlist l) =>
      if dupe_long_id ∈ l then
        let l' := removeFirst l dupe_long_id ++
          [dupe_long_id ++ label_delimiter ++ getS dupe1 "photo_id"]
        (dictInsert orig1 "ext_ids" (.vlist l'),
         if aliased then dictInsert dupe1 "ext_ids" (.vlist l') else dupe1)
      else (orig1, dupe1)
  | _ => (orig1, dupe1)

/-- `merge_dupe` (mergeFiles.py lines 139-207).  Returns the mutated primary
record and the mutated dupe record. -/
def merge_dupe (orig_entry dupe_entry : Record) (label_delimiter : String) :
    Record × Record :=
  let dupe1 : Record := strip_orig_long_id orig_entry dupe_entry
  let looped : Record × Bool := dupe1.foldl merge_dupe_fields (orig_entry, false)
  finish_ext_ids looped.1 dupe1 looped.2 label_delimiter

/-- The mutable state threaded through the `dupe_data` loop of `merge_data`
(mergeFiles.py lines 83-100), plus the `pywikibot.error` audit log. -/
structure MergeState where
  mainData : Dict Record
  candidates : Dict Candidate
  duplicates : Dict Candidate
  errors : List String
deriving Repr

def dupeKeyError (key : String) : String :=
  key ++ ": The same photo_id was found in both files.Sanitize your data!"

/-- One iteration of the `dupe_data` loop of `merge_data` (lines 91-100).
The arm keeping `mainData` unchanged is the state where the source would call
`merge_dupe(None, ...)` and raise `AttributeError`; it is unreachable when
every primary record sits under its own `photo_id` key. -/
def merge_data_step (label_delimiter : String) (st : MergeState)
    (kv : String × Record) : MergeState :=
  let key := kv.1
  let dupe_entry := kv.2
  let r := identify_dupe_id dupe_entry st.candidates st.duplicates
  let insertBranch : MergeState :=
    { mainData := dictInsert st.mainData key dupe_entry
      candidates := r.2.1
      duplicates := r.2.2
      errors :=
        if dictContains st.mainData key then st.errors ++ [dupeKeyError key]
        else st.errors }
  match r.1 with
  | some orig_photo_id =>
      if orig_photo_id ≠ "" then  -- `if orig_photo_id:` — truthiness of the returned id
        match dictGet? st.mainData orig_photo_id with
        | some orig_record =>
            { mainData := dictInsert st.mainData orig_photo_id
                (merge_dupe orig_record dupe_entry label_delimiter).1
              candidates := r.2.1
              duplicates := r.2.2
              errors := st.errors }
        | none => { st with candidates := r.2.1, duplicates := r.2.2 }
      else insertBranch
  | none => insertBranch

/-- `process_dupe_archive_entry` (mergeFiles.py lines 210-220).  The fallback
arm is the state where the source raises `TypeError` (`photo_ids` missing or
scalar); unreachable for schema-typed archive cards. -/
def process_dupe_archive_entry (data : Record) (duplicates : Dict Candidate) : Record :=
  match dictGet? data "photo_ids" with
  | some (.vlist photo_ids) =>
      let clean_photo_ids := photo_ids.map (fun photo_id =>
        match dictGet? duplicates photo_id with
        | some c => c.origPhotoId
        | none => photo_id)
      dictInsert data "photo_ids" (.vlist clean_photo_ids)
  | _ => data

/-- The four loaded datasets handed to `merge_data` (mergeFiles.py lines 71-80). -/
structure DataFiles where
  main_data : Dict Record
  archive_data : Dict Record
  dupe_data : Dict Record
  dupe_archive_data : Dict Record

/-- The outcome of one merge run. -/
structure MergeResult where
  main_data : Dict Record
  archive_data : Dict Record
  candidates : Dict Candidate
  duplicates : Dict Candidate
  errors : List String

/-- The starting state of `merge_data` (mergeFiles.py lines 85-88). -/
def init_merge_state (files : DataFiles) : MergeState :=
  { mainData := files.main_data
    candidates := populate_candidates files.main_data
    duplicates := []
    errors := [] }

/-- `merge_data` (mergeFiles.py lines 83-104): resolve and merge every
secondary main record, then re-point every secondary archive card and insert
it under its own key.  The archive pass (lines 102-104) emits no error or
warning, mirroring the source. -/
def merge_data (files : DataFiles) (label_delimiter : String) : MergeResult :=
  let st1 := files.dupe_data.foldl (merge_data_step label_delimiter)
    (init_merge_state files)
  let archive1 := files.dupe_archive_data.foldl
    (fun ad kv => dictInsert ad kv.1 (process_dupe_archive_entry kv.2 st1.duplicates))
    files.archive_data
  { main_data := st1.mainData
    archive_data := archive1
    candidates := st1.candidates
    duplicates := st1.duplicates
    errors := st1.errors }

/-! ## csvParser.py and smvk_utils.py -/

/-- One pair of `relabel_inner_dicts` (smvk_utils.py line 44):
`inner[new_key] = inner.pop(old_key)`.  The fallback arm keeping the record
unchanged is the state where the source raises `KeyError` (`pop` of an absent
column); unreachable for loader rows, which always carry every schema column. -/
def relabel_step (r : Record) (p : String × String) : Record :=
  match dictGet? r p.1 with
  | some v => dictInsert (dictPop r p.1) p.2 v
  | none => r

/-- `relabel_inner_dicts` applied to a single record (smvk_utils.py lines
40-45): rename each column of the key map in map order. -/
def relabel_inner (key_map : List (String × String)) (inner : Record) : Record :=
  key_map.foldl relabel_step inner

/-- `relabel_inner_dicts` (smvk_utils.py lines 40-45): relabel every record
of a dataset in place. -/
def relabel_inner_dicts (obj : Dict Record) (key_map : List (String × String)) :
    Dict Record :=
  obj.map (fun kv => (kv.1, relabel_inner key_map kv.2))

/-- `invert_dict` (smvk_utils.py lines 48-51): `{v: k for k, v in old_dict.items()}`. -/
def invert_dict (old_dict : List (String × String)) : Dict String :=
  old_dict.foldl (fun d p => dictInsert d p.2 p.1) []

/-- A file schema as returned by `archive_metadata()` / `main_metadata()`
(csvParser.py lines 13-72): ordered external column name ↦ internal field
name mapping, the external names of list-valued columns, and the external
name of the key column. -/
structure Metadata where
  fields : List (String × String)
  list_columns : List String
  key_column : String

/-- `archive_metadata()` (csvParser.py lines 13-28). -/
def archive_metadata : Metadata :=
  { fields := [("Id", "label"), ("Postnr", "db_id"),
               ("Museum/objekt", "museum_obj"), ("Fotonummer", "photo_ids")]
    list_columns := ["Fotonummer"]
    key_column := "Postnr" }

/-- `main_metadata()` (csvParser.py lines 31-72). -/
def main_metadata : Metadata :=
  { fields :=
      [("Fotonummer", "photo_id"),
       ("Beskrivning", "description_sv"),
       ("Motivord", "motivord"),
       ("Sökord", "sokord"),
       ("Händelse", "event"),
       ("Etnisk grupp", "ethnic"),
       ("Personnamn, avbildad", "depicted_persons"),
       ("Land, Fotograferad", "land"),
       ("Region, fotograferad i", "region"),
       ("Ort, fotograferad i", "ort"),
       ("Geografiskt namn, annat", "other_geo"),
       ("Fotograf", "photographer"),
       ("Fotodatum", "date"),
       ("Personnamn / tillverkare", "creator"),
       ("Beskrivning, engelska", "description_en"),
       ("Referens / Publicerad i", "reference_published"),
       ("Postnr.", "db_id"),
       ("Objekt, externt / samma som", "ext_ids"),
       ("Etn, tidigare", "ethnic_old"),
       ("Land, ursprung/brukad", "depicted_land"),
       ("Region/Ort, ursprung", "depicted_places"),
       ("Referens / källa", "reference_source"),
       ("Media/Licens", "license"),
       ("Museum/objekt", "museum_obj")]
    list_columns :=
      ["Motivord", "Sökord", "Etnisk grupp", "Personnamn, avbildad",
       "Region, fotograferad i", "Ort, fotograferad i",
       "Geografiskt namn, annat", "Fotodatum",
       "Objekt, externt / samma som", "Region/Ort, ursprung",
       "Referens / Publicerad i"]
    key_column := "Fotonummer" }

/-- The default delimiters of the source (csvParser.py lines 9-10 and
mergeFiles.py lines 24-26).  They are single characters, so delimiters are
modelled as `Char`; the label delimiter is only ever concatenated, so it
stays a `String`. -/
def DELIMITER : Char := Char.ofNat 164

def LIST_DELIMITER : Char := Char.ofNat 124

def LABEL_DELIMITER : String := "!"

/-- A delimited data file: the raw header line plus, per data row, the list
of its cell strings. -/
structure CsvFile where
  header : String
  rows : List (List String)
deriving DecidableEq, Repr

/-- Split a string at every occurrence of a delimiter character. -/
def splitString (sep : Char) (s : String) : List String :=
  (s.data.splitOn sep).map String.mk

/-- Join strings with a delimiter character between them. -/
def joinString (sep : Char) (l : List String) : String :=
  String.mk (List.intercalate [sep] (l.map String.data))

/-- Modelled from the spec: the cell serialization of the external
`batchupload.csv_methods` codec (the schema-checked delimited-file codec of
spec §4.1/§4.7, absent from this repository): a scalar is written as is, a
list-valued cell is written as its items joined by the list delimiter. -/
def encode_cell (listDelim : Char) : Option Value → String
  | some (.str s) => s
  | some (.vlist l) => joinString listDelim l
  | none => ""

/-- Modelled from the spec: cell parsing of the external codec — a column
marked list-valued is split on the list delimiter, an empty cell giving the
empty sequence (not `[""]`); any other column is taken verbatim. -/
def decode_cell (isList : Bool) (listDelim : Char) (s : String) : Value :=
  if isList then (if s = "" then .vlist [] else .vlist (splitString listDelim s))
  else .str s

/-- Modelled from the spec: `batchupload.csv_methods.csv_file_to_dict`
(spec §4.1) — fail unless the header line equals the expected schema string
exactly; then key every row by its key-column cell, decoding list-valued
columns. -/
def csv_file_to_dict (file : CsvFile) (key_column expected_header : String)
    (lists : List String) (delim listDelim : Char) : Option (Dict Record) :=
  if file.header = expected_header then
    let columns := splitString delim file.header
    some (file.rows.foldl
      (fun d row =>
        let record : Record := (columns.zip row).map
          (fun p => (p.1, decode_cell (p.1 ∈ lists) listDelim p.2))
        let key := match dictGet? record key_column with
          | some (.str s) => s
          | _ => ""
        dictInsert d key record)
      [])
  else none

/-- Modelled from the spec: `batchupload.csv_methods.dict_to_csv_file`
(spec §4.7) — write the given header line and one row per record, cells in
header-column order. -/
def dict_to_csv_file (data : Dict Record) (header : String)
    (delim listDelim : Char) : CsvFile :=
  let columns := splitString delim header
  { header := header
    rows := data.map (fun kv => columns.map (fun c => encode_cell listDelim (dictGet? kv.2 c))) }

/-- `CsvParser.base_load_data` (csvParser.py lines 84-99): build the expected
header from the schema, parse, then relabel every record from external column
names to internal field names. -/
def base_load_data (file : CsvFile) (meta : Metadata) (delim listDelim : Char) :
    Option (Dict Record) :=
  let expected_header := joinString delim (meta.fields.map Prod.fst)
  (csv_file_to_dict file meta.key_column expected_header meta.list_columns
      delim listDelim).map
    (fun raw => relabel_inner_dicts raw meta.fields)

/-- `CsvParser.base_output_data` (csvParser.py lines 130-144): relabel every
record back to external column names through the inverted schema mapping and
write with the same joined header used for validation at load. -/
def base_output_data (data : Dict Record) (meta : Metadata) (delim listDelim : Char) :
    CsvFile :=
  let relabelled := relabel_inner_dicts data (invert_dict meta.fields)
  let header := joinString delim (meta.fields.map Prod.fst)
  dict_to_csv_file relabelled header delim listDelim

/-- Well-typedness of one cell value for its column: a value in a list-marked
column is a list not equal to `[""]` whose items avoid the list delimiter
(exactly the values the loader itself can produce); any other column holds a
scalar. -/
def cell_ok (lists : List String) (listDelim : Char) (ext : String) : Value → Prop
  | .str _ => ext ∉ lists
  | .vlist l => ext ∈ lists ∧ l ≠ [""] ∧ ∀ s ∈ l, listDelim ∉ s.data

instance cell_ok_dec (lists : List String) (listDelim : Char) (ext : String) :
    (v : Value) → Decidable (cell_ok lists listDelim ext v)
  | .str _ => inferInstanceAs (Decidable (ext ∉ lists))
  | .vlist l =>
      inferInstanceAs (Decidable (ext ∈ lists ∧ l ≠ [""] ∧ ∀ s ∈ l, listDelim ∉ s.data))

/-! ## Concrete records used by counterexamples and witnesses -/

/-- A primary main record whose own long id `"A/1"` sits in its own
`ext_ids`, alongside the genuine cross-reference `"B/2"`. -/
def recA : Record :=
  [("photo_id", .str "p1"), ("museum_obj", .str "A"), ("db_id", .str "1"),
   ("ext_ids", .vlist ["A/1", "B/2"]), ("license", .str "PD"),
   ("event", .str "abc.")]

/-- A secondary main record with long id `"B/2"`. -/
def recB : Record :=
  [("photo_id", .str "p2"), ("museum_obj", .str "B"), ("db_id", .str "2"),
   ("ext_ids", .vlist []), ("license", .str "cc0"), ("event", .str "abc")]

/-- A primary record with an empty `ext_ids`, so a field merge adopts the
dupe's list by reference. -/
def recAliasOrig : Record :=
  [("photo_id", .str "p1"), ("museum_obj", .str "N"), ("db_id", .str "1"),
   ("ext_ids", .vlist [])]

/-- A secondary record carrying its own long id `"M/2"` in `ext_ids`. -/
def recAliasDupe : Record :=
  [("photo_id", .str "p2"), ("museum_obj", .str "M"), ("db_id", .str "2"),
   ("ext_ids", .vlist ["M/2"])]

/-- A primary record whose `photo_id` is the empty string (an empty key cell)
but which claims the external id `"M/2"`. -/
def recEmptyPid : Record :=
  [("photo_id", .str ""), ("museum_obj", .str "A"), ("db_id", .str "1"),
   ("ext_ids", .vlist ["M/2"])]

/-- A secondary record with long id `"M/2"` and photo id `"p2"`. -/
def recSecM2 : Record :=
  [("photo_id", .str "p2"), ("museum_obj", .str "M"), ("db_id", .str "2"),
   ("ext_ids", .vlist [])]

/-- Input datasets in which the only candidate match points at the primary
record with the empty `photo_id`. -/
def filesEmptyPid : DataFiles :=
  { main_data := [("", recEmptyPid)]
    archive_data := []
    dupe_data := [("p2", recSecM2)]
    dupe_archive_data := [] }

/-- A primary archive card under card key `"5"`. -/
def cardOld : Record :=
  [("label", .str "K0"), ("db_id", .str "5"), ("museum_obj", .str "EM"),
   ("photo_ids", .vlist ["x"])]

/-- A secondary archive card under the same card key `"5"`, referencing the
duplicate photo id `"p2"`. -/
def cardNew : Record :=
  [("label", .str "K1"), ("db_id", .str "5"), ("museum_obj", .str "EM"),
   ("photo_ids", .vlist ["p1", "p2"])]

/-- A full merge input: `recB` duplicates `recA` (via external id `"B/2"`),
and the archive cards collide on card key `"5"`. -/
def filesFull : DataFiles :=
  { main_data := [("p1", recA)]
    archive_data := [("5", cardOld)]
    dupe_data := [("p2", recB)]
    dupe_archive_data := [("5", cardNew)] }

/-- A clean primary record: its `ext_ids` carries only the genuine
cross-reference `"B/2"` and no self-reference. -/
def recP : Record :=
  [("photo_id", .str "p1"), ("museum_obj", .str "A"), ("db_id", .str "1"),
   ("ext_ids", .vlist ["B/2"]), ("license", .str "cc0"),
   ("event", .str "hello")]

/-- A small archive dataset in loader-canonical shape, for the round-trip
witness. -/
def arcData : Dict Record :=
  [("5", [("label", .str "K1"), ("db_id", .str "5"), ("museum_obj", .str "EM"),
          ("photo_ids", .vlist ["p1", "p2"])])]

/-! ## Dictionary lemmas -/

theorem dictGet?_insert_self {α : Type} (d : Dict α) (k : String) (v : α) :
    dictGet? (dictInsert d k v) k = some v := by
  induction d with
  | nil => simp [dictInsert, dictGet?]
  | cons kv rest ih =>
      obtain ⟨k', v'⟩ := kv
      by_cases h : k' = k
      · simp [dictInsert, h, dictGet?]
      · simp [dictInsert, h, dictGet?, ih]

theorem dictGet?_insert_ne {α : Type} (d : Dict α) (k k₂ : String) (v : α)
    (h : k₂ ≠ k) : dictGet? (dictInsert d k v) k₂ = dictGet? d k₂ := by
  induction d with
  | nil => simp [dictInsert, dictGet?, Ne.symm h]
  | cons kv rest ih =>
      obtain ⟨k', v'⟩ := kv
      by_cases hk : k' = k
      · subst hk
        simp [dictInsert, dictGet?, Ne.symm h]
      · by_cases hk₂ : k' = k₂ <;> simp [dictInsert, hk, dictGet?, hk₂, ih, h]

theorem dictGet?_pop_ne {α : Type} (d : Dict α) (k k₂ : String)
    (h : k₂ ≠ k) : dictGet? (dictPop d k) k₂ = dictGet? d k₂ := by
  induction d with
  | nil => simp [dictPop]
  | cons kv rest ih =>
      obtain ⟨k', v'⟩ := kv
      by_cases hk : k' = k
      · subst hk
        simp [dictPop, dictGet?, Ne.symm h]
      · by_cases hk₂ : k' = k₂ <;> simp [dictPop, hk, dictGet?, hk₂, ih, h]

theorem dictGet?_eq_none_iff {α : Type} (d : Dict α) (k : String) :
    dictGet? d k = none ↔ k ∉ dictKeys d := by
  induction d with
  | nil => simp [dictGet?, dictKeys]
  | cons kv rest ih =>
      obtain ⟨k', v'⟩ := kv
      by_cases hk : k' = k
      · simp [dictGet?, hk, dictKeys]
      · simp [dictGet?, hk, dictKeys, ih, Ne.symm hk]

theorem dictGet?_pop_self {α : Type} (d : Dict α) (k : String)
    (h : (dictKeys d).Nodup) : dictGet? (dictPop d k) k = none := by
  induction d with
  | nil => simp [dictPop, dictGet?]
  | cons kv rest ih =>
      obtain ⟨k', v'⟩ := kv
      simp only [dictKeys, List.map_cons, List.nodup_cons] at h
      by_cases hk : k' = k
      · subst hk
        simp only [dictPop, if_pos rfl]
        exact (dictGet?_eq_none_iff rest k').mpr h.1
      · simp [dictPop, hk, dictGet?, ih h.2]

theorem dictGet?_pop_of_none {α : Type} (d : Dict α) (k k₂ : String)
    (h : dictGet? d k = none) : dictGet? (dictPop d k₂) k = none := by
  induction d with
  | nil => simp [dictPop, dictGet?]
  | cons kv rest ih =>
      obtain ⟨k', v'⟩ := kv
      by_cases hk : k' = k
      · simp [dictGet?, hk] at h
      · simp only [dictGet?, if_neg hk] at h
        by_cases hk₂ : k' = k₂ <;> simp [dictPop, hk₂, dictGet?, hk, ih h, h]

theorem dictKeys_insert_of_contains {α : Type} (d : Dict α) (k : String) (v : α)
    (h : dictContains d k = true) : dictKeys (dictInsert d k v) = dictKeys d := by
  induction d with
  | nil => simp [dictContains, dictGet?] at h
  | cons kv rest ih =>
      obtain ⟨k', v'⟩ := kv
      by_cases hk : k' = k
      · simp [dictInsert, hk, dictKeys]
      · simp only [dictContains, dictGet?, if_neg hk] at h
        have hh := ih h
        simp only [dictKeys] at hh
        simp [dictInsert, hk, dictKeys, hh]

theorem dictInsert_of_not_contains {α : Type} (d : Dict α) (k : String) (v : α)
    (h : ¬ dictContains d k = true) : dictInsert d k v = d ++ [(k, v)] := by
  induction d with
  | nil => simp [dictInsert]
  | cons kv rest ih =>
      obtain ⟨k', v'⟩ := kv
      by_cases hk : k' = k
      · simp [dictContains, dictGet?, hk] at h
      · simp only [dictContains, dictGet?, if_neg hk] at h
        simp [dictInsert, hk, ih h]

theorem dictKeys_insert_nodup {α : Type} (d : Dict α) (k : String) (v : α)
    (h : (dictKeys d).Nodup) : (dictKeys (dictInsert d k v)).Nodup := by
  induction d with
  | nil => simp [dictInsert, dictKeys]
  | cons kv rest ih =>
      obtain ⟨k', v'⟩ := kv
      simp only [dictKeys, List.map_cons, List.nodup_cons] at h
      by_cases hk : k' = k
      · subst hk
        have he : dictInsert ((k', v') :: rest) k' v = (k', v) :: rest := by
          simp [dictInsert]
        rw [he]
        simp only [dictKeys, List.map_cons, List.nodup_cons]
        exact h
      · have hmem : k' ∉ dictKeys (dictInsert rest k v) := by
          by_cases hc : dictContains rest k = true
          · rw [dictKeys_insert_of_contains rest k v hc]; exact h.1
          · rw [dictInsert_of_not_contains rest k v hc]
            simp only [dictKeys, List.map_append, List.map_cons, List.map_nil,
              List.mem_append, List.mem_singleton]
            rintro (hm | hm)
            · exact h.1 hm
            · exact hk hm
        have he : dictInsert ((k', v') :: rest) k v = (k', v') :: dictInsert rest k v := by
          simp [dictInsert, hk]
        rw [he]
        simp only [dictKeys, List.map_cons, List.nodup_cons]
        exact ⟨hmem, ih h.2⟩

/-- Folding inserts whose keys avoid `k` leaves the binding of `k` alone. -/
theorem dictGet?_foldl_insert_not_mem {α β : Type} (f : α → β)
    (l : List (String × α)) (ad : Dict β) (k : String)
    (h : k ∉ l.map Prod.fst) :
    dictGet? (l.foldl (fun d kv => dictInsert d kv.1 (f kv.2)) ad) k =
      dictGet? ad k := by
  induction l generalizing ad with
  | nil => rfl
  | cons kv rest ih =>
      simp only [List.map_cons, List.mem_cons] at h
      push_neg at h
      simp only [List.foldl_cons]
      rw [ih _ h.2, dictGet?_insert_ne _ _ _ _ h.1]

/-- `dictGet?` over the fold that re-inserts every processed archive card:
a key carried by the processed list with nodup keys ends at its processed
value. -/
theorem dictGet?_foldl_insert {α β : Type} (f : α → β) (l : List (String × α))
    (ad : Dict β) (k : String) (a : α)
    (hnd : (l.map Prod.fst).Nodup) (h : dictGet? l k = some a) :
    dictGet? (l.foldl (fun d kv => dictInsert d kv.1 (f kv.2)) ad) k = some (f a) := by
  induction l generalizing ad with
  | nil => simp [dictGet?] at h
  | cons kv rest ih =>
      obtain ⟨k₁, a₁⟩ := kv
      simp only [List.map_cons, List.nodup_cons] at hnd
      by_cases hk : k₁ = k
      · subst hk
        have h₂ : a₁ = a := by simpa [dictGet?] using h
        subst h₂
        simp only [List.foldl_cons]
        rw [dictGet?_foldl_insert_not_mem f rest _ k₁ hnd.1]
        exact dictGet?_insert_self ad k₁ (f a₁)
      · simp only [dictGet?, if_neg hk] at h
        simp only [List.foldl_cons]
        exact ih _ hnd.2 h

theorem removeFirst_sublist (l : List String) (x : String) :
    (removeFirst l x).Sublist l := by
  induction l with
  | nil => simp [removeFirst]
  | cons a rest ih =>
      by_cases h : a = x
      · rw [show removeFirst (a :: rest) x = rest from by simp [removeFirst, h]]
        exact List.sublist_cons_self a rest
      · rw [show removeFirst (a :: rest) x = a :: removeFirst rest x from by
          simp [removeFirst, h]]
        exact ih.cons₂ a

theorem not_mem_removeFirst (l : List String) (x : String) (h : l.Nodup) :
    x ∉ removeFirst l x := by
  induction l with
  | nil => simp [removeFirst]
  | cons a rest ih =>
      simp only [List.nodup_cons] at h
      by_cases ha : a = x
      · subst ha
        simpa [removeFirst] using h.1
      · simp only [removeFirst, if_neg ha, List.mem_cons]
        rintro (he | hm)
        · exact ha he.symm
        · exact ih h.2 hm

theorem mem_of_mem_removeFirst {l : List String} {x y : String}
    (h : y ∈ removeFirst l x) : y ∈ l :=
  (removeFirst_sublist l x).mem h

/-! ## The field loop of merge_dupe -/

/-- With unique field names, the loop of `merge_dupe` rewrites a field of the
primary record exactly according to `merge_field` applied to the primary's
original value of that field and the dupe's value (or leaves it alone when
the dupe record lacks the field). -/
theorem merge_dupe_fields_get (items : List (String × Value)) :
    ∀ (orig : Record) (b : Bool) (k : String),
      (items.map Prod.fst).Nodup →
      dictGet? (items.foldl merge_dupe_fields (orig, b)).1 k =
        match dictGet? items k with
        | some dv => actionResult (merge_field k (dictGet? orig k) dv) (dictGet? orig k)
        | none => dictGet? orig k := by
  induction items with
  | nil => intro orig b k _; rfl
  | cons fv rest ih =>
      intro orig b k hnd
      obtain ⟨f, dv⟩ := fv
      simp only [List.map_cons, List.nodup_cons] at hnd
      simp only [List.foldl_cons]
      by_cases hfk : f = k
      · subst hfk
        have hrest : dictGet? rest f = none :=
          (dictGet?_eq_none_iff rest f).mpr (by simpa [dictKeys] using hnd.1)
        rw [ih _ _ f hnd.2, hrest]
        have hhead : dictGet? ((f, dv) :: rest) f = some dv := by simp [dictGet?]
        rw [hhead]
        cases hma : merge_field f (dictGet? orig f) dv with
        | skip => simp [merge_dupe_fields, hma, actionResult]
        | adopt v => simp [merge_dupe_fields, hma, actionResult, dictGet?_insert_self]
        | resolve v => simp [merge_dupe_fields, hma, actionResult, dictGet?_insert_self]
      · have hhead : dictGet? ((f, dv) :: rest) k = dictGet? rest k := by
          simp [dictGet?, hfk]
        rw [hhead, ih _ _ k hnd.2]
        have hstep : dictGet? (merge_dupe_fields (orig, b) (f, dv)).1 k =
            dictGet? orig k := by
          cases hma : merge_field f (dictGet? orig f) dv <;>
            simp [merge_dupe_fields, hma, dictGet?_insert_ne _ _ _ _ (Ne.symm hfk)]
        simp only [hstep]

/-- A field whose current primary value is truthy is never adopted by
reference. -/
theorem merge_field_ne_adopt (f : String) (ov : Option Value) (dv v : Value)
    (h : truthyO ov = true) : merge_field f ov dv ≠ FieldAction.adopt v := by
  intro hc
  unfold merge_field at hc
  rw [h] at hc
  simp only [Bool.not_true] at hc
  repeat' split at hc
  all_goals simp_all

/-- Once the loop has passed the (unique) `ext_ids` item, the aliasing flag
can no longer change. -/
theorem merge_dupe_fields_snd_no_ext (items : List (String × Value)) :
    ∀ (orig : Record) (b : Bool),
      "ext_ids" ∉ items.map Prod.fst →
      (items.foldl merge_dupe_fields (orig, b)).2 = b := by
  induction items with
  | nil => intro orig b _; rfl
  | cons fv rest ih =>
      intro orig b h
      obtain ⟨f, dv⟩ := fv
      simp only [List.map_cons, List.mem_cons] at h
      push_neg at h
      simp only [List.foldl_cons]
      have hstep : (merge_dupe_fields (orig, b) (f, dv)).2 = b := by
        cases hma : merge_field f (dictGet? orig f) dv <;>
          simp [merge_dupe_fields, hma, Ne.symm h.1]
      calc (rest.foldl merge_dupe_fields (merge_dupe_fields (orig, b) (f, dv))).2
          = (merge_dupe_fields (orig, b) (f, dv)).2 := ih _ _ h.2
        _ = b := hstep

/-- When the primary record enters the loop with a truthy `ext_ids`, the
dupe's list is never adopted by reference: the aliasing flag stays put. -/
theorem merge_dupe_fields_snd (items : List (String × Value)) :
    ∀ (orig : Record) (b : Bool),
      (items.map Prod.fst).Nodup →
      truthyO (dictGet? orig "ext_ids") = true →
      (items.foldl merge_dupe_fields (orig, b)).2 = b := by
  induction items with
  | nil => intro orig b _ _; rfl
  | cons fv rest ih =>
      intro orig b hnd ht
      obtain ⟨f, dv⟩ := fv
      simp only [List.map_cons, List.nodup_cons] at hnd
      simp only [List.foldl_cons]
      by_cases hf : f = "ext_ids"
      · have ht₂ : truthyO (dictGet? orig f) = true := by rw [hf]; exact ht
        have hstep2 : (merge_dupe_fields (orig, b) (f, dv)).2 = b := by
          cases hma : merge_field f (dictGet? orig f) dv with
          | skip => simp [merge_dupe_fields, hma]
          | adopt v => exact absurd hma (merge_field_ne_adopt f _ dv v ht₂)
          | resolve v => simp [merge_dupe_fields, hma]
        have hnomem : "ext_ids" ∉ rest.map Prod.fst := by rw [← hf]; exact hnd.1
        rw [merge_dupe_fields_snd_no_ext rest _ _ hnomem, hstep2]
      · have hstep1 : dictGet? (merge_dupe_fields (orig, b) (f, dv)).1 "ext_ids" =
            dictGet? orig "ext_ids" := by
          cases hma : merge_field f (dictGet? orig f) dv <;>
            simp [merge_dupe_fields, hma, dictGet?_insert_ne _ _ _ _ (Ne.symm hf)]
        have hstep2 : (merge_dupe_fields (orig, b) (f, dv)).2 = b := by
          cases hma : merge_field f (dictGet? orig f) dv <;>
            simp [merge_dupe_fields, hma, hf]
        rw [ih _ _ hnd.2 (by rw [hstep1]; exact ht), hstep2]

/-! ## strip_orig_long_id and finish_ext_ids -/

theorem strip_of_vlist (o d : Record) (l : List String)
    (h : dictGet? d "ext_ids" = some (.vlist l)) :
    strip_orig_long_id o d = dictInsert d "ext_ids" (.vlist (removeFirst l (longId o))) := by
  simp [strip_orig_long_id, h]

theorem strip_get_ne (o d : Record) (k : String) (h : k ≠ "ext_ids") :
    dictGet? (strip_orig_long_id o d) k = dictGet? d k := by
  unfold strip_orig_long_id
  cases hm : dictGet? d "ext_ids" with
  | none => rfl
  | some v =>
      cases v with
      | str s => rfl
      | vlist l => exact dictGet?_insert_ne _ _ _ _ h

theorem strip_keys_nodup (o d : Record) (h : (dictKeys d).Nodup) :
    (dictKeys (strip_orig_long_id o d)).Nodup := by
  unfold strip_orig_long_id
  cases hm : dictGet? d "ext_ids" with
  | none => exact h
  | some v =>
      cases v with
      | str s => exact h
      | vlist l => exact dictKeys_insert_nodup _ _ _ h

theorem finish_fst_get_ne (o1 d1 : Record) (al : Bool) (delim k : String)
    (h : k ≠ "ext_ids") :
    dictGet? (finish_ext_ids o1 d1 al delim).1 k = dictGet? o1 k := by
  unfold finish_ext_ids
  cases hm : dictGet? o1 "ext_ids" with
  | none => rfl
  | some v =>
      cases v with
      | str s => rfl
      | vlist l =>
          by_cases hmem : longId d1 ∈ l
          · simp only [hmem, if_pos]
            exact dictGet?_insert_ne _ _ _ _ h
          · simp only [hmem, if_neg, not_false_iff]

theorem finish_snd_false (o1 d1 : Record) (delim : String) :
    (finish_ext_ids o1 d1 false delim).2 = d1 := by
  unfold finish_ext_ids
  cases hm : dictGet? o1 "ext_ids" with
  | none => rfl
  | some v =>
      cases v with
      | str s => rfl
      | vlist l => by_cases hmem : longId d1 ∈ l <;> simp [hmem]

theorem finish_fst_of_mem (o1 d1 : Record) (al : Bool) (delim : String)
    (L : List String) (hL : dictGet? o1 "ext_ids" = some (.vlist L))
    (hm : longId d1 ∈ L) :
    (finish_ext_ids o1 d1 al delim).1 =
      dictInsert o1 "ext_ids"
        (.vlist (removeFirst L (longId d1) ++
          [longId d1 ++ delim ++ getS d1 "photo_id"])) := by
  simp [finish_ext_ids, hL, hm]

theorem longId_insert_ne (r : Record) (k : String) (v : Value)
    (h₁ : k ≠ "museum_obj") (h₂ : k ≠ "db_id") :
    longId (dictInsert r k v) = longId r := by
  unfold longId
  rw [dictGet?_insert_ne _ _ _ _ (Ne.symm h₁), dictGet?_insert_ne _ _ _ _ (Ne.symm h₂)]

theorem getS_insert_ne (r : Record) (k k₂ : String) (v : Value) (h : k₂ ≠ k) :
    getS (dictInsert r k v) k₂ = getS r k₂ := by
  unfold getS
  rw [dictGet?_insert_ne _ _ _ _ h]

/-! ## Claim C5 — license merge -/

/-- C5.  In `merge_dupe`, when both license values are non-empty: equal values
are left alone; the unordered pair `{PD, cc0}` resolves to `PD`; any other
differing pair becomes `<primary>/<secondary>`. -/
theorem C5_license_merge (orig_entry dupe_entry : Record)
    (label_delimiter a b : String)
    (hnd : (dictKeys dupe_entry).Nodup)
    (ha : dictGet? orig_entry "license" = some (.str a))
    (hb : dictGet? dupe_entry "license" = some (.str b))
    (hae : a ≠ "") (hbe : b ≠ "") :
    dictGet? (merge_dupe orig_entry dupe_entry label_delimiter).1 "license" =
      some (.str (if a = b then a
        else if (a = "PD" ∧ b = "cc0") ∨ (a = "cc0" ∧ b = "PD") then "PD"
        else a ++ "/" ++ b)) := by
  unfold merge_dupe
  rw [finish_fst_get_ne _ _ _ _ _ (by decide)]
  rw [merge_dupe_fields_get _ _ _ _ (strip_keys_nodup _ _ hnd)]
  rw [strip_get_ne _ _ _ (by decide), hb, ha]
  by_cases hab : a = b
  · subst hab
    simp [merge_field, actionResult]
  · have hbt : (Value.str b).truthy = true := by simp [Value.truthy, hbe]
    have hat : truthyO (some (Value.str a)) = true := by
      simp [truthyO, Value.truthy, hae]
    by_cases hpd : (a = "PD" ∧ b = "cc0") ∨ (a = "cc0" ∧ b = "PD") <;>
      simp [merge_field, hbt, hat, actionResult, hab, hpd, Ne.symm hab]

/-- C5 witness: `recA` (license `PD`) merged with `recB` (license `cc0`)
resolves to `PD`. -/
theorem C5_license_merge_witness :
    ((dictKeys recB).Nodup ∧
      dictGet? recA "license" = some (.str "PD") ∧
      dictGet? recB "license" = some (.str "cc0") ∧
      "PD" ≠ "" ∧ "cc0" ≠ "") ∧
    dictGet? (merge_dupe recA recB "!").1 "license" =
      some (.str (if "PD" = "cc0" then "PD"
        else if ("PD" = "PD" ∧ "cc0" = "cc0") ∨ ("PD" = "cc0" ∧ "cc0" = "PD") then "PD"
        else "PD" ++ "/" ++ "cc0")) :=
  ⟨by constructor
      · decide
      · exact ⟨by decide, by decide, by decide, by decide⟩,
   C5_license_merge recA recB "!" "PD" "cc0" (by decide) (by decide) (by decide)
     (by decide) (by decide)⟩

/-! ## Claim C6 — free-text scalar merge -/

/-- C6 (amended).  For a generic scalar field with both sides non-empty, the
primary is left alone when the two values are equal after *whitespace*
trimming (`str.strip()`); otherwise the merged value is
`primary.rstrip(' .') + '. ' + secondary`, with `' .'` then stripped from the
left of the whole. -/
theorem C6_freetext_merge (orig_entry dupe_entry : Record)
    (label_delimiter f a b : String)
    (hnd : (dictKeys dupe_entry).Nodup)
    (hf : f ∉ ["photo_id", "db_id", "museum_obj", "date", "license", "ext_ids"])
    (ha : dictGet? orig_entry f = some (.str a))
    (hb : dictGet? dupe_entry f = some (.str b))
    (hae : a ≠ "") (hbe : b ≠ "") :
    dictGet? (merge_dupe orig_entry dupe_entry label_delimiter).1 f =
      some (.str (if pyStrip a = pyStrip b then a else concatTexts a b)) := by
  simp only [List.mem_cons, List.mem_singleton] at hf
  push_neg at hf
  obtain ⟨hf1, hf2, hf3, hf4, hf5, hf6, -⟩ := hf
  unfold merge_dupe
  rw [finish_fst_get_ne _ _ _ _ _ hf6]
  rw [merge_dupe_fields_get _ _ _ _ (strip_keys_nodup _ _ hnd)]
  rw [strip_get_ne _ _ _ hf6, hb, ha]
  by_cases hab : a = b
  · subst hab
    simp [merge_field, actionResult]
  · have hbt : (Value.str b).truthy = true := by simp [Value.truthy, hbe]
    have hat : truthyO (some (Value.str a)) = true := by
      simp [truthyO, Value.truthy, hae]
    by_cases hst : pyStrip a = pyStrip b <;>
      simp [merge_field, hbt, hat, actionResult, hab, hf1, hf2, hf3, hf4, hf5,
        hst, Ne.symm hab]

/-- C6 counterexample: the claim predicts that a primary `"abc."` and a
secondary `"abc"` — equal once whitespace *and periods* are trimmed — leave
the primary unchanged; the code only strips whitespace before comparing, so
it concatenates to `"abc. abc"`. -/
theorem C6_freetext_counterexample :
    lstripSpaceDot (rstripSpaceDot "abc.") = lstripSpaceDot (rstripSpaceDot "abc") ∧
    dictGet? (merge_dupe recA recB "!").1 "event" = some (.str "abc. abc") ∧
    some (Value.str "abc. abc") ≠ some (Value.str "abc.") := by
  refine ⟨by decide, ?_, by decide⟩
  decide

/-- C6 witness: primary `"abc."`, secondary `"abc"` on the generic field
`event` concatenate (their whitespace-trims differ). -/
theorem C6_freetext_merge_witness :
    ((dictKeys recB).Nodup ∧
      ("event" : String) ∉ ["photo_id", "db_id", "museum_obj", "date", "license", "ext_ids"] ∧
      dictGet? recA "event" = some (.str "abc.") ∧
      dictGet? recB "event" = some (.str "abc") ∧
      ("abc." : String) ≠ "" ∧ ("abc" : String) ≠ "") ∧
    dictGet? (merge_dupe recA recB "!").1 "event" =
      some (.str (if pyStrip "abc." = pyStrip "abc" then "abc."
        else concatTexts "abc." "abc")) :=
  ⟨by refine ⟨by decide, by decide, by decide, by decide, by decide, by decide⟩,
   C6_freetext_merge recA recB "!" "event" "abc." "abc" (by decide) (by decide)
     (by decide) (by decide) (by decide) (by decide)⟩

/-! ## Claim C2 — merged ext_ids invariant -/

/-- C2 (amended).  For a matched pair whose `ext_ids` lists are duplicate-free,
where the primary's list does not carry the primary's own long id but does
carry the secondary's, the label delimiter is non-empty and the labeled
provenance string collides with nothing pre-existing: after `merge_dupe` the
merged `ext_ids` contains neither the primary's own long id nor the
secondary's long id unlabeled, and contains the labeled form exactly once. -/
theorem C2_ext_ids_invariant (orig_entry dupe_entry : Record)
    (label_delimiter : String) (OE DE : List String)
    (hnd : (dictKeys dupe_entry).Nodup)
    (hOE : dictGet? orig_entry "ext_ids" = some (.vlist OE))
    (hDE : dictGet? dupe_entry "ext_ids" = some (.vlist DE))
    (hOEnd : OE.Nodup) (hDEnd : DE.Nodup)
    (hself : longId orig_entry ∉ OE)
    (hmatch : longId dupe_entry ∈ OE)
    (hdelim : label_delimiter ≠ "")
    (hlabO : longId dupe_entry ++ label_delimiter ++ getS dupe_entry "photo_id" ∉ OE)
    (hlabD : longId dupe_entry ++ label_delimiter ++ getS dupe_entry "photo_id" ∉ DE)
    (hlabself :
      longId orig_entry ≠
        longId dupe_entry ++ label_delimiter ++ getS dupe_entry "photo_id") :
    ∃ L : List String,
      dictGet? (merge_dupe orig_entry dupe_entry label_delimiter).1 "ext_ids" =
        some (.vlist L) ∧
      longId orig_entry ∉ L ∧
      longId dupe_entry ∉ L ∧
      L.count (longId dupe_entry ++ label_delimiter ++
        getS dupe_entry "photo_id") = 1 := by
  set OL := longId orig_entry with hOL
  set DL := longId dupe_entry with hDL
  set pid := getS dupe_entry "photo_id" with hpid
  set lab := DL ++ label_delimiter ++ pid with hlab
  set DE1 := removeFirst DE OL with hDE1
  have hd1 : strip_orig_long_id orig_entry dupe_entry =
      dictInsert dupe_entry "ext_ids" (.vlist DE1) := strip_of_vlist _ _ _ hDE
  have hd1get : dictGet? (strip_orig_long_id orig_entry dupe_entry) "ext_ids" =
      some (.vlist DE1) := by rw [hd1]; exact dictGet?_insert_self _ _ _
  have hd1long : longId (strip_orig_long_id orig_entry dupe_entry) = DL := by
    rw [hd1, longId_insert_ne _ _ _ (by decide) (by decide)]
  have hd1pid : getS (strip_orig_long_id orig_entry dupe_entry) "photo_id" = pid := by
    rw [hd1, getS_insert_ne _ _ _ _ (by decide)]
  have hOEne : OE ≠ [] := by rintro rfl; simp at hmatch
  -- what the field loop leaves in the primary's ext_ids
  have hloopget : dictGet?
      ((strip_orig_long_id orig_entry dupe_entry).foldl merge_dupe_fields
        (orig_entry, false)).1 "ext_ids" =
      actionResult
        (merge_field "ext_ids" (some (.vlist OE)) (.vlist DE1)) (some (.vlist OE)) := by
    rw [merge_dupe_fields_get _ _ _ _ (strip_keys_nodup _ _ hnd), hd1get, hOE]
  -- the two possible merged lists
  have hmain : ∃ L₀ : List String,
      actionResult (merge_field "ext_ids" (some (.vlist OE)) (.vlist DE1))
        (some (.vlist OE)) = some (.vlist L₀) ∧
      (L₀ = OE ∨ L₀ = (OE ++ DE1).dedup) := by
    by_cases h1 : DE1.isEmpty
    · refine ⟨OE, ?_, Or.inl rfl⟩
      simp [merge_field, Value.truthy, h1, actionResult]
    · by_cases h2 : OE = DE1
      · refine ⟨OE, ?_, Or.inl rfl⟩
        simp [merge_field, h2, actionResult]
      · refine ⟨(OE ++ DE1).dedup, ?_, Or.inr rfl⟩
        have hot : truthyO (some (Value.vlist OE)) = true := by
          simp [truthyO, Value.truthy, hOEne]
        simp [merge_field, Value.truthy, h1, h2, hot, actionResult]
  obtain ⟨L₀, hact, hL₀⟩ := hmain
  have hOLDE1 : OL ∉ DE1 := not_mem_removeFirst DE OL hDEnd
  have hmem₀ : DL ∈ L₀ := by
    rcases hL₀ with rfl | rfl
    · exact hmatch
    · exact List.mem_dedup.mpr (List.mem_append_left _ hmatch)
  have hOL₀ : OL ∉ L₀ := by
    rcases hL₀ with rfl | rfl
    · exact hself
    · intro hm
      rcases List.mem_append.mp (List.mem_dedup.mp hm) with hm | hm
      · exact hself hm
      · exact hOLDE1 hm
  have hlab₀ : lab ∉ L₀ := by
    rcases hL₀ with rfl | rfl
    · exact hlabO
    · intro hm
      rcases List.mem_append.mp (List.mem_dedup.mp hm) with hm | hm
      · exact hlabO hm
      · exact hlabD (mem_of_mem_removeFirst hm)
  have hnd₀ : L₀.Nodup := by
    rcases hL₀ with rfl | rfl
    · exact hOEnd
    · exact List.nodup_dedup _
  have hDLlab : DL ≠ lab := by
    intro he
    have hlen := congrArg String.length he
    rw [hlab, String.length_append, String.length_append] at hlen
    have hd0 : label_delimiter.length = 0 := by omega
    apply hdelim
    cases label_delimiter with
    | mk ld =>
        have hld : ld = [] := List.length_eq_zero.mp hd0
        subst hld
        rfl
  -- run the final remove/append
  have hmdef : merge_dupe orig_entry dupe_entry label_delimiter =
      finish_ext_ids
        ((strip_orig_long_id orig_entry dupe_entry).foldl merge_dupe_fields
          (orig_entry, false)).1
        (strip_orig_long_id orig_entry dupe_entry)
        ((strip_orig_long_id orig_entry dupe_entry).foldl merge_dupe_fields
          (orig_entry, false)).2
        label_delimiter := rfl
  have hfin := finish_fst_of_mem
    ((strip_orig_long_id orig_entry dupe_entry).foldl merge_dupe_fields
      (orig_entry, false)).1
    (strip_orig_long_id orig_entry dupe_entry)
    ((strip_orig_long_id orig_entry dupe_entry).foldl merge_dupe_fields
      (orig_entry, false)).2
    label_delimiter L₀ (by rw [hloopget, hact]) (by rw [hd1long]; exact hmem₀)
  rw [hd1long, hd1pid] at hfin
  refine ⟨removeFirst L₀ DL ++ [lab], ?_, ?_, ?_, ?_⟩
  · rw [hmdef, hfin]
    exact dictGet?_insert_self _ _ _
  · intro hm
    rcases List.mem_append.mp hm with hm | hm
    · exact hOL₀ (mem_of_mem_removeFirst hm)
    · rw [List.mem_singleton] at hm
      exact hlabself hm
  · intro hm
    rcases List.mem_append.mp hm with hm | hm
    · exact not_mem_removeFirst L₀ DL hnd₀ hm
    · rw [List.mem_singleton] at hm
      exact hDLlab hm
  · rw [List.count_append]
    rw [List.count_eq_zero.mpr (fun hm => hlab₀ (mem_of_mem_removeFirst hm))]
    simp

/-- C2 counterexample: `recA` carries its own long id `"A/1"` in its own
`ext_ids`; the code only strips the primary's long id from the *secondary's*
list, so `"A/1"` survives the merge — the claim's "neither … the primary
record's own current long_id" fails. -/
theorem C2_ext_ids_counterexample :
    dictGet? (merge_dupe recA recB "!").1 "ext_ids" =
      some (.vlist ["A/1", "B/2!p2"]) ∧
    longId recA = "A/1" ∧ "A/1" ∈ ["A/1", "B/2!p2"] := by
  refine ⟨by decide, by decide, by decide⟩

/-- C2 witness: the clean pair `recP` / `recB` satisfies every hypothesis and
ends with merged `ext_ids = ["B/2!p2"]`. -/
theorem C2_ext_ids_invariant_witness :
    ((dictKeys recB).Nodup ∧
      dictGet? recP "ext_ids" = some (.vlist ["B/2"]) ∧
      dictGet? recB "ext_ids" = some (.vlist []) ∧
      (["B/2"] : List String).Nodup ∧ ([] : List String).Nodup ∧
      longId recP ∉ ["B/2"] ∧ longId recB ∈ ["B/2"] ∧ ("!" : String) ≠ "" ∧
      longId recB ++ "!" ++ getS recB "photo_id" ∉ ["B/2"] ∧
      longId recB ++ "!" ++ getS recB "photo_id" ∉ ([] : List String) ∧
      longId recP ≠ longId recB ++ "!" ++ getS recB "photo_id") ∧
    dictGet? (merge_dupe recP recB "!").1 "ext_ids" =
      some (.vlist ["B/2!p2"]) ∧
    longId recP ∉ ["B/2!p2"] ∧
    longId recB ∉ ["B/2!p2"] ∧
    List.count (longId recB ++ "!" ++ getS recB "photo_id") ["B/2!p2"] = 1 := by
  refine ⟨by decide, ?_⟩
  obtain ⟨L, h1, h2, h3, h4⟩ := C2_ext_ids_invariant recP recB "!" ["B/2"] []
    (by decide) (by decide) (by decide) (by decide) (by decide) (by decide)
    (by decide) (by decide) (by decide) (by decide) (by decide)
  have hc : dictGet? (merge_dupe recP recB "!").1 "ext_ids" =
      some (.vlist ["B/2!p2"]) := by decide
  rw [h1] at hc
  have hL : L = ["B/2!p2"] := by simpa using hc
  subst hL
  exact ⟨h1, h2, h3, h4⟩

/-! ## Claim C10 — mutation of the secondary record -/

/-- C10 (amended).  When the primary record's `ext_ids` is truthy (so the
field loop never adopts the secondary's list by reference), `merge_dupe`
changes the secondary record in exactly one way: the first occurrence of the
primary's long id is removed from its `ext_ids`; every other field is left
untouched. -/
theorem C10_dupe_frame (orig_entry dupe_entry : Record) (label_delimiter : String)
    (DE : List String)
    (hnd : (dictKeys dupe_entry).Nodup)
    (hDE : dictGet? dupe_entry "ext_ids" = some (.vlist DE))
    (ht : truthyO (dictGet? orig_entry "ext_ids") = true) :
    (merge_dupe orig_entry dupe_entry label_delimiter).2 =
      dictInsert dupe_entry "ext_ids"
        (.vlist (removeFirst DE (longId orig_entry))) ∧
    (∀ k, k ≠ "ext_ids" →
      dictGet? (merge_dupe orig_entry dupe_entry label_delimiter).2 k =
        dictGet? dupe_entry k) := by
  have hd1 : strip_orig_long_id orig_entry dupe_entry =
      dictInsert dupe_entry "ext_ids"
        (.vlist (removeFirst DE (longId orig_entry))) := strip_of_vlist _ _ _ hDE
  have hal : ((strip_orig_long_id orig_entry dupe_entry).foldl merge_dupe_fields
      (orig_entry, false)).2 = false :=
    merge_dupe_fields_snd _ _ _ (strip_keys_nodup _ _ hnd) ht
  have hmdef : merge_dupe orig_entry dupe_entry label_delimiter =
      finish_ext_ids
        ((strip_orig_long_id orig_entry dupe_entry).foldl merge_dupe_fields
          (orig_entry, false)).1
        (strip_orig_long_id orig_entry dupe_entry)
        ((strip_orig_long_id orig_entry dupe_entry).foldl merge_dupe_fields
          (orig_entry, false)).2
        label_delimiter := rfl
  have hsnd : (merge_dupe orig_entry dupe_entry label_delimiter).2 =
      strip_orig_long_id orig_entry dupe_entry := by
    rw [hmdef, hal]
    exact finish_snd_false _ _ _
  constructor
  · rw [hsnd, hd1]
  · intro k hk
    rw [hsnd, hd1, dictGet?_insert_ne _ _ _ _ hk]

/-- C10 counterexample: with an empty primary `ext_ids` the loop adopts the
secondary's list object, and the final in-place relabeling is visible in the
secondary record — its `ext_ids` ends as `["M/2!p2"]`, not merely with the
primary's long id removed (`["M/2"]`). -/
theorem C10_dupe_frame_counterexample :
    dictGet? (merge_dupe recAliasOrig recAliasDupe "!").2 "ext_ids" =
      some (.vlist ["M/2!p2"]) ∧
    Value.vlist ["M/2!p2"] ≠
      Value.vlist (removeFirst ["M/2"] (longId recAliasOrig)) := by
  refine ⟨by decide, by decide⟩

/-- C10 witness: merging `recB` into `recP` (truthy primary `ext_ids`) leaves
the secondary record exactly re-written by `removeFirst`. -/
theorem C10_dupe_frame_witness :
    ((dictKeys recB).Nodup ∧
      dictGet? recB "ext_ids" = some (.vlist []) ∧
      truthyO (dictGet? recP "ext_ids") = true) ∧
    (merge_dupe recP recB "!").2 =
      dictInsert recB "ext_ids" (.vlist (removeFirst [] (longId recP))) :=
  ⟨by refine ⟨by decide, by decide, by decide⟩,
   (C10_dupe_frame recP recB "!" [] (by decide) (by decide) (by decide)).1⟩

/-! ## Claim C3 — the candidate index -/

/-- A record one of whose external ids is `x` has a truthy `ext_ids`. -/
theorem truthy_of_mem_extIds (e : Record) (x : String) (h : x ∈ extIdsOf e) :
    truthyO (dictGet? e "ext_ids") = true := by
  unfold extIdsOf at h
  cases hm : dictGet? e "ext_ids" with
  | none => rw [hm] at h; simp at h
  | some v =>
      cases v with
      | str s => rw [hm] at h; simp at h
      | vlist l =>
          rw [hm] at h
          have : l ≠ [] := by rintro rfl; simp at h
          simp [truthyO, Value.truthy, this]

/-- Registering all external ids of one record: `x` ends at this record's
candidate iff `x` is among them. -/
theorem populate_inner_get (e : Record) (l : List String) :
    ∀ (acc : Dict Candidate) (x : String),
      dictGet? (l.foldl
        (fun cs ext_id => dictInsert cs ext_id (mkCandidate e ext_id)) acc) x =
      if x ∈ l then some (mkCandidate e x) else dictGet? acc x := by
  induction l with
  | nil => intro acc x; simp
  | cons i rest ih =>
      intro acc x
      simp only [List.foldl_cons]
      rw [ih]
      by_cases hx : x ∈ rest
      · simp [hx]
      · by_cases hxi : x = i
        · subst hxi
          simp [hx, dictGet?_insert_self]
        · simp [hx, hxi, dictGet?_insert_ne _ _ _ _ hxi]

/-- The candidate index lookup over a list of records: the *last* record
claiming `x` wins. -/
theorem populate_values_get (l : List Record) :
    ∀ (acc : Dict Candidate) (x : String),
      dictGet? (l.foldl
        (fun cands entry =>
          if truthyO (dictGet? entry "ext_ids") then
            (extIdsOf entry).foldl
              (fun cs ext_id => dictInsert cs ext_id (mkCandidate entry ext_id)) cands
          else cands) acc) x =
      match l.reverse.find? (fun e => decide (x ∈ extIdsOf e)) with
      | some e => some (mkCandidate e x)
      | none => dictGet? acc x := by
  induction l with
  | nil => intro acc x; simp
  | cons e rest ih =>
      intro acc x
      simp only [List.foldl_cons, List.reverse_cons]
      rw [ih, List.find?_append]
      cases hfr : List.find? (fun e => decide (x ∈ extIdsOf e)) rest.reverse with
      | some e₂ => simp [Option.or]
      | none =>
          simp only [Option.none_or]
          by_cases hxe : x ∈ extIdsOf e
          · rw [truthy_of_mem_extIds e x hxe]
            simp [populate_inner_get, hxe, List.find?_cons]
          · by_cases hg : truthyO (dictGet? e "ext_ids") = true
            · simp [hg, populate_inner_get, hxe, List.find?_cons]
            · simp [hg, hxe, List.find?_cons]

/-- C3 (amended).  `populate_candidates` maps each external id `x` to the
candidate of the **last** primary record claiming `x` (later records silently
overwrite earlier ones, no error is raised), and that candidate is
`{orig_photo_id, orig_long_id, dupe_photo_id := None, dupe_long_id := x}` —
the registered external id itself, not `None`. -/
theorem C3_populate_candidates (data : Dict Record) (x : String) :
    dictGet? (populate_candidates data) x =
      ((dictValues data).reverse.find? (fun e => decide (x ∈ extIdsOf e))).map
        (fun e => mkCandidate e x) := by
  unfold populate_candidates
  rw [populate_values_get]
  cases (dictValues data).reverse.find? (fun e => decide (x ∈ extIdsOf e)) with
  | some e => rfl
  | none => rfl

/-- C3 counterexample: the claim states the registered candidate has
`dupe_long_id: None`; the code stores the external id itself
(mergeFiles.py line 123). -/
theorem C3_populate_candidates_counterexample :
    dictGet? (populate_candidates [("p1", recP)]) "B/2" =
      some { origPhotoId := "p1", origLongId := "A/1",
             dupePhotoId := none, dupeLongId := some "B/2" } ∧
    (some "B/2" : Option String) ≠ none := by
  refine ⟨by decide, by decide⟩

/-! ## Claims C1 and C7 — the duplicate resolver -/

theorem identify_of_some (entry : Record) (candidates duplicates : Dict Candidate)
    (cand : Candidate) (h : dictGet? candidates (longId entry) = some cand) :
    identify_dupe_id entry candidates duplicates =
      (some cand.origPhotoId, dictPop candidates (longId entry),
       dictInsert duplicates (getS entry "photo_id")
         { cand with dupePhotoId := some (getS entry "photo_id") }) := by
  simp [identify_dupe_id, h]

theorem identify_of_none (entry : Record) (candidates duplicates : Dict Candidate)
    (h : dictGet? candidates (longId entry) = none) :
    identify_dupe_id entry candidates duplicates = (none, candidates, duplicates) := by
  simp [identify_dupe_id, h]

/-- Every branch of the resolver step carries over the candidate index
produced by `identify_dupe_id`. -/
theorem merge_data_step_candidates (label_delimiter : String) (st : MergeState)
    (kv : String × Record) :
    (merge_data_step label_delimiter st kv).candidates =
      (identify_dupe_id kv.2 st.candidates st.duplicates).2.1 := by
  simp only [merge_data_step]
  repeat' split
  all_goals rfl

/-- A consumed (or never present) candidate never reappears in a later step. -/
theorem merge_data_step_candidates_none (label_delimiter : String)
    (st : MergeState) (kv : String × Record) (x : String)
    (h : dictGet? st.candidates x = none) :
    dictGet? (merge_data_step label_delimiter st kv).candidates x = none := by
  rw [merge_data_step_candidates]
  cases hm : dictGet? st.candidates (longId kv.2) with
  | none => rw [identify_of_none _ _ _ hm]; exact h
  | some cand =>
      rw [identify_of_some _ _ _ _ hm]
      exact dictGet?_pop_of_none _ _ _ h

/-- C1 (amended).  When a secondary record's long id hits the candidate index
and the matched candidate's `orig_photo_id` is non-empty (truthy) and names an
existing primary slot, the resolver pops the candidate (it cannot match a
second secondary record), stores the completed candidate under the
secondary's photo id, and merges in place — the primary dataset gains no new
key; and once gone, no later step can resurrect the candidate. -/
theorem C1_duplicate_resolution (label_delimiter : String) (st : MergeState)
    (key : String) (dupe_entry orig_record : Record) (cand : Candidate)
    (hnd : (dictKeys st.candidates).Nodup)
    (hc : dictGet? st.candidates (longId dupe_entry) = some cand)
    (hpid : cand.origPhotoId ≠ "")
    (horig : dictGet? st.mainData cand.origPhotoId = some orig_record) :
    (merge_data_step label_delimiter st (key, dupe_entry)).candidates =
      dictPop st.candidates (longId dupe_entry) ∧
    dictGet? (merge_data_step label_delimiter st (key, dupe_entry)).candidates
      (longId dupe_entry) = none ∧
    dictGet? (merge_data_step label_delimiter st (key, dupe_entry)).duplicates
      (getS dupe_entry "photo_id") =
        some { cand with dupePhotoId := some (getS dupe_entry "photo_id") } ∧
    dictKeys (merge_data_step label_delimiter st (key, dupe_entry)).mainData =
      dictKeys st.mainData ∧
    dictGet? (merge_data_step label_delimiter st (key, dupe_entry)).mainData
      cand.origPhotoId =
        some (merge_dupe orig_record dupe_entry label_delimiter).1 ∧
    (∀ (st₂ : MergeState) (kv : String × Record),
      dictGet? st₂.candidates (longId dupe_entry) = none →
      dictGet? (merge_data_step label_delimiter st₂ kv).candidates
        (longId dupe_entry) = none) := by
  have hstep : merge_data_step label_delimiter st (key, dupe_entry) =
      { mainData := dictInsert st.mainData cand.origPhotoId
          (merge_dupe orig_record dupe_entry label_delimiter).1
        candidates := dictPop st.candidates (longId dupe_entry)
        duplicates := dictInsert st.duplicates (getS dupe_entry "photo_id")
          { cand with dupePhotoId := some (getS dupe_entry "photo_id") }
        errors := st.errors } := by
    simp [merge_data_step, identify_of_some _ _ _ _ hc, hpid, horig]
  have hcont : dictContains st.mainData cand.origPhotoId = true := by
    simp [dictContains, horig]
  refine ⟨?_, ?_, ?_, ?_, ?_, ?_⟩
  · rw [hstep]
  · rw [hstep]; exact dictGet?_pop_self _ _ hnd
  · rw [hstep]; exact dictGet?_insert_self _ _ _
  · rw [hstep]; exact dictKeys_insert_of_contains _ _ _ hcont
  · rw [hstep]; exact dictGet?_insert_self _ _ _
  · intro st₂ kv h₂
    exact merge_data_step_candidates_none _ _ _ _ h₂

/-- C1 counterexample: the primary claiming `"M/2"` has photo id `""`
(falsy), so although the secondary record `recSecM2` *matches* — the
candidate is consumed and recorded in the duplicate mapping — it is inserted
into the primary dataset as a new entry instead of being merged. -/
theorem C1_duplicate_resolution_counterexample :
    dictGet? (populate_candidates filesEmptyPid.main_data) (longId recSecM2) ≠ none ∧
    dictGet? (merge_data filesEmptyPid "!").duplicates "p2" ≠ none ∧
    dictGet? (merge_data filesEmptyPid "!").main_data "p2" = some recSecM2 ∧
    dictKeys (merge_data filesEmptyPid "!").main_data ≠
      dictKeys filesEmptyPid.main_data := by
  refine ⟨by decide, by decide, by decide, by decide⟩

/-- C1 witness: resolving `recB` against the state built from `filesFull`. -/
theorem C1_duplicate_resolution_witness :
    ((dictKeys (init_merge_state filesFull).candidates).Nodup ∧
      dictGet? (init_merge_state filesFull).candidates (longId recB) =
        some { origPhotoId := "p1", origLongId := "A/1",
               dupePhotoId := none, dupeLongId := some "B/2" } ∧
      ("p1" : String) ≠ "" ∧
      dictGet? (init_merge_state filesFull).mainData "p1" = some recA) ∧
    (merge_data_step "!" (init_merge_state filesFull) ("p2", recB)).candidates =
      dictPop (init_merge_state filesFull).candidates (longId recB) ∧
    dictGet? (merge_data_step "!" (init_merge_state filesFull) ("p2", recB)).candidates
      (longId recB) = none ∧
    dictGet? (merge_data_step "!" (init_merge_state filesFull) ("p2", recB)).duplicates
      (getS recB "photo_id") =
        some { origPhotoId := "p1", origLongId := "A/1",
               dupePhotoId := some (getS recB "photo_id"),
               dupeLongId := some "B/2" } ∧
    dictKeys (merge_data_step "!" (init_merge_state filesFull) ("p2", recB)).mainData =
      dictKeys (init_merge_state filesFull).mainData ∧
    dictGet? (merge_data_step "!" (init_merge_state filesFull) ("p2", recB)).mainData
      "p1" = some (merge_dupe recA recB "!").1 := by
  have h := C1_duplicate_resolution "!" (init_merge_state filesFull) "p2" recB recA
    { origPhotoId := "p1", origLongId := "A/1",
      dupePhotoId := none, dupeLongId := some "B/2" }
    (by decide) (by decide) (by decide) (by decide)
  exact ⟨⟨by decide, by decide, by decide, by decide⟩,
    h.1, h.2.1, h.2.2.1, h.2.2.2.1, h.2.2.2.2.1⟩

/-- C7.  A secondary record matching no candidate whose photo id already keys
the primary dataset: the step logs the data-quality error, still overwrites
the primary slot with the secondary record, and leaves the candidate index
and duplicate mapping alone — the run carries on (the step is total and the
fold proceeds to the next record). -/
theorem C7_photo_id_collision (label_delimiter : String) (st : MergeState)
    (key : String) (dupe_entry : Record)
    (hmiss : dictGet? st.candidates (longId dupe_entry) = none)
    (hcol : dictContains st.mainData key = true) :
    (merge_data_step label_delimiter st (key, dupe_entry)).errors =
      st.errors ++ [dupeKeyError key] ∧
    dictGet? (merge_data_step label_delimiter st (key, dupe_entry)).mainData key =
      some dupe_entry ∧
    (merge_data_step label_delimiter st (key, dupe_entry)).candidates =
      st.candidates ∧
    (merge_data_step label_delimiter st (key, dupe_entry)).duplicates =
      st.duplicates := by
  have hstep : merge_data_step label_delimiter st (key, dupe_entry) =
      { mainData := dictInsert st.mainData key dupe_entry
        candidates := st.candidates
        duplicates := st.duplicates
        errors := st.errors ++ [dupeKeyError key] } := by
    simp [merge_data_step, identify_of_none _ _ _ hmiss, hcol]
  refine ⟨by rw [hstep], ?_, by rw [hstep], by rw [hstep]⟩
  rw [hstep]
  exact dictGet?_insert_self _ _ _

/-- C7 witness: a one-record primary dataset colliding with the same photo id
from the secondary side, no candidates. -/
theorem C7_photo_id_collision_witness :
    ((dictGet? (MergeState.mk [("p2", recB)] [] [] []).candidates
        (longId recB) = none) ∧
      dictContains (MergeState.mk [("p2", recB)] [] [] []).mainData "p2" = true) ∧
    (merge_data_step "!" (MergeState.mk [("p2", recB)] [] [] []) ("p2", recB)).errors =
      [] ++ [dupeKeyError "p2"] ∧
    dictGet? (merge_data_step "!" (MergeState.mk [("p2", recB)] [] [] [])
      ("p2", recB)).mainData "p2" = some recB ∧
    (merge_data_step "!" (MergeState.mk [("p2", recB)] [] [] [])
      ("p2", recB)).candidates = [] ∧
    (merge_data_step "!" (MergeState.mk [("p2", recB)] [] [] [])
      ("p2", recB)).duplicates = [] :=
  ⟨⟨by decide, by decide⟩,
   C7_photo_id_collision "!" (MergeState.mk [("p2", recB)] [] [] []) "p2" recB
     (by decide) (by decide)⟩

/-! ## Claims C4 and C9 — the archive pass -/

/-- C4.  Every secondary archive card is re-pointed element-wise — each photo
id found in the duplicate mapping is replaced by that entry's
`orig_photo_id`, all others pass through, length and order are preserved
(the rewrite is a `map`), no other field changes — and the card is inserted
into the merged archive dataset under its own card key unconditionally. -/
theorem C4_archive_reconciliation (files : DataFiles) (label_delimiter k : String)
    (card : Record) (pids : List String)
    (hnd : (dictKeys files.dupe_archive_data).Nodup)
    (hcard : dictGet? files.dupe_archive_data k = some card)
    (hp : dictGet? card "photo_ids" = some (.vlist pids)) :
    dictGet? (merge_data files label_delimiter).archive_data k =
      some (process_dupe_archive_entry card
        (files.dupe_data.foldl (merge_data_step label_delimiter)
          (init_merge_state files)).duplicates) ∧
    dictGet? (process_dupe_archive_entry card
        (files.dupe_data.foldl (merge_data_step label_delimiter)
          (init_merge_state files)).duplicates) "photo_ids" =
      some (.vlist (pids.map (fun p =>
        match dictGet? (files.dupe_data.foldl (merge_data_step label_delimiter)
            (init_merge_state files)).duplicates p with
        | some c => c.origPhotoId
        | none => p))) ∧
    (pids.map (fun p =>
        match dictGet? (files.dupe_data.foldl (merge_data_step label_delimiter)
            (init_merge_state files)).duplicates p with
        | some c => c.origPhotoId
        | none => p)).length = pids.length ∧
    (∀ f, f ≠ "photo_ids" →
      dictGet? (process_dupe_archive_entry card
        (files.dupe_data.foldl (merge_data_step label_delimiter)
          (init_merge_state files)).duplicates) f = dictGet? card f) := by
  have hpd : process_dupe_archive_entry card
      (files.dupe_data.foldl (merge_data_step label_delimiter)
        (init_merge_state files)).duplicates =
      dictInsert card "photo_ids" (.vlist (pids.map (fun p =>
        match dictGet? (files.dupe_data.foldl (merge_data_step label_delimiter)
            (init_merge_state files)).duplicates p with
        | some c => c.origPhotoId
        | none => p))) := by
    simp [process_dupe_archive_entry, hp]
  refine ⟨?_, ?_, List.length_map _ _, ?_⟩
  · exact dictGet?_foldl_insert
      (fun c => process_dupe_archive_entry c
        (files.dupe_data.foldl (merge_data_step label_delimiter)
          (init_merge_state files)).duplicates)
      files.dupe_archive_data files.archive_data k card hnd hcard
  · rw [hpd]; exact dictGet?_insert_self _ _ _
  · intro f hf
    rw [hpd]
    exact dictGet?_insert_ne _ _ _ _ hf

/-- C4 witness: the archive card `cardNew` of `filesFull` has its
`photo_ids = ["p1", "p2"]` re-pointed (the duplicate `"p2"` becomes `"p1"`)
and lands under its own key `"5"`. -/
theorem C4_archive_reconciliation_witness :
    ((dictKeys filesFull.dupe_archive_data).Nodup ∧
      dictGet? filesFull.dupe_archive_data "5" = some cardNew ∧
      dictGet? cardNew "photo_ids" = some (.vlist ["p1", "p2"])) ∧
    dictGet? (merge_data filesFull "!").archive_data "5" =
      some (process_dupe_archive_entry cardNew
        (filesFull.dupe_data.foldl (merge_data_step "!")
          (init_merge_state filesFull)).duplicates) ∧
    dictGet? (process_dupe_archive_entry cardNew
        (filesFull.dupe_data.foldl (merge_data_step "!")
          (init_merge_state filesFull)).duplicates) "photo_ids" =
      some (.vlist ((["p1", "p2"] : List String).map (fun p =>
        match dictGet? (filesFull.dupe_data.foldl (merge_data_step "!")
            (init_merge_state filesFull)).duplicates p with
        | some c => c.origPhotoId
        | none => p))) := by
  have h := C4_archive_reconciliation filesFull "!" "5" cardNew ["p1", "p2"]
    (by decide) (by decide) (by decide)
  exact ⟨⟨by decide, by decide, by decide⟩, h.1, h.2.1⟩

/-- C9.  A secondary archive card whose key collides with a primary card
silently replaces it: the merged archive dataset holds the re-pointed
secondary card under that key, and the archive pass appends nothing to the
error log (unlike the main-record photo-id collision of C7). -/
theorem C9_archive_collision (files : DataFiles) (label_delimiter k : String)
    (card : Record)
    (hnd : (dictKeys files.dupe_archive_data).Nodup)
    (hcard : dictGet? files.dupe_archive_data k = some card)
    (hcol : dictContains files.archive_data k = true) :
    dictGet? (merge_data files label_delimiter).archive_data k =
      some (process_dupe_archive_entry card
        (files.dupe_data.foldl (merge_data_step label_delimiter)
          (init_merge_state files)).duplicates) ∧
    (merge_data files label_delimiter).errors =
      (files.dupe_data.foldl (merge_data_step label_delimiter)
        (init_merge_state files)).errors := by
  refine ⟨?_, rfl⟩
  have := hcol
  exact dictGet?_foldl_insert
    (fun c => process_dupe_archive_entry c
      (files.dupe_data.foldl (merge_data_step label_delimiter)
        (init_merge_state files)).duplicates)
    files.dupe_archive_data files.archive_data k card hnd hcard

/-! ## Claim C8 — load/serialize round trip -/

theorem dictKeys_append {α : Type} (d₁ d₂ : Dict α) :
    dictKeys (d₁ ++ d₂) = dictKeys d₁ ++ dictKeys d₂ := by
  simp [dictKeys]

theorem dictInsert_append_of_not_mem {α : Type} (d : Dict α) (k : String) (v : α)
    (h : k ∉ dictKeys d) : dictInsert d k v = d ++ [(k, v)] := by
  apply dictInsert_of_not_contains
  rw [dictContains, (dictGet?_eq_none_iff d k).mpr h]
  simp

/-- `invert_dict` of a mapping with distinct values is the swapped pair list. -/
theorem invert_dict_aux (m : List (String × String)) :
    ∀ (acc : Dict String),
      (m.map Prod.snd).Nodup →
      (∀ p ∈ m, p.2 ∉ dictKeys acc) →
      m.foldl (fun d p => dictInsert d p.2 p.1) acc = acc ++ m.map Prod.swap := by
  induction m with
  | nil => intro acc _ _; simp
  | cons p m ih =>
      intro acc hnd hfr
      simp only [List.map_cons, List.nodup_cons] at hnd
      simp only [List.foldl_cons]
      rw [dictInsert_append_of_not_mem _ _ _ (hfr p (List.mem_cons_self p m))]
      rw [ih _ hnd.2 ?fresh]
      · simp [Prod.swap]
      case fresh =>
        intro q hq
        rw [dictKeys_append]
        simp only [List.mem_append]
        rintro (hm | hm)
        · exact hfr q (List.mem_cons_of_mem p hq) hm
        · simp only [dictKeys, List.map_cons, List.map_nil, List.mem_singleton] at hm
          exact hnd.1 (hm ▸ List.mem_map_of_mem Prod.snd hq)

theorem invert_dict_eq_map (m : List (String × String))
    (h : (m.map Prod.snd).Nodup) :
    invert_dict m = m.map Prod.swap := by
  unfold invert_dict
  rw [invert_dict_aux m [] h (by intro p _; simp [dictKeys])]
  rfl

/-- The central relabeling law: `relabel_inner` applied to a record holding
exactly the map's old keys (in map order, followed by untouched extra
bindings whose keys avoid the map) pops each old key and appends the new key
with the same value, yielding the new keys in map order after the extras. -/
theorem relabel_inner_zip (km : List (String × String)) :
    ∀ (vs : List Value) (extra : Record),
      vs.length = km.length →
      (km.map Prod.fst).Nodup →
      (km.map Prod.snd).Nodup →
      (∀ p ∈ km, ∀ q ∈ km, p.1 ≠ q.2) →
      (∀ p ∈ km, p.1 ∉ dictKeys extra) →
      (∀ p ∈ km, p.2 ∉ dictKeys extra) →
      relabel_inner km ((km.map Prod.fst).zip vs ++ extra) =
        extra ++ (km.map Prod.snd).zip vs := by
  induction km with
  | nil =>
      intro vs extra _ _ _ _ _ _
      simp [relabel_inner]
  | cons p km ih =>
      intro vs extra hlen hfst hsnd hdisj hexf hexs
      obtain ⟨o, n⟩ := p
      cases vs with
      | nil => simp at hlen
      | cons v vs =>
          simp only [List.map_cons, List.nodup_cons] at hfst hsnd
          simp only [List.map_cons, List.zip_cons_cons, List.cons_append]
          have hnfr : n ∉ dictKeys ((km.map Prod.fst).zip vs ++ extra) := by
            rw [dictKeys_append]
            simp only [List.mem_append]
            rintro (hm | hm)
            · simp only [dictKeys] at hm
              obtain ⟨pr, hpr, hpr2⟩ := List.mem_map.mp hm
              obtain ⟨a, b⟩ := pr
              have ha : a ∈ km.map Prod.fst := (List.of_mem_zip hpr).1
              obtain ⟨q, hq, hq2⟩ := List.mem_map.mp ha
              exact hdisj q (List.mem_cons_of_mem _ hq) (o, n)
                (List.mem_cons_self _ _) (hq2.trans hpr2)
            · exact hexs (o, n) (List.mem_cons_self _ _) hm
          have hstep : relabel_step
              (((o, v) :: ((km.map Prod.fst).zip vs ++ extra)) : Record) (o, n) =
              (km.map Prod.fst).zip vs ++ (extra ++ [(n, v)]) := by
            have hget : dictGet? (((o, v) ::
                ((km.map Prod.fst).zip vs ++ extra)) : Record) o = some v := by
              simp [dictGet?]
            have hpop : dictPop (((o, v) ::
                ((km.map Prod.fst).zip vs ++ extra)) : Record) o =
                (km.map Prod.fst).zip vs ++ extra := by simp [dictPop]
            simp only [relabel_step, hget, hpop,
              dictInsert_append_of_not_mem _ _ _ hnfr, List.append_assoc]
          unfold relabel_inner
          simp only [List.foldl_cons]
          rw [hstep]
          have hres := ih vs (extra ++ [(n, v)]) (by simpa using hlen) hfst.2 hsnd.2
            (fun q hq r hr =>
              hdisj q (List.mem_cons_of_mem _ hq) r (List.mem_cons_of_mem _ hr))
            ?exf ?exs
          · rw [show List.foldl relabel_step
                ((km.map Prod.fst).zip vs ++ (extra ++ [(n, v)])) km =
                relabel_inner km ((km.map Prod.fst).zip vs ++ (extra ++ [(n, v)]))
                from rfl]
            rw [hres]
            simp
          case exf =>
            intro q hq
            rw [dictKeys_append]
            simp only [List.mem_append]
            rintro (hm | hm)
            · exact hexf q (List.mem_cons_of_mem _ hq) hm
            · simp only [dictKeys, List.map_cons, List.map_nil,
                List.mem_singleton] at hm
              exact hdisj q (List.mem_cons_of_mem _ hq) (o, n)
                (List.mem_cons_self _ _) hm
          case exs =>
            intro q hq
            rw [dictKeys_append]
            simp only [List.mem_append]
            rintro (hm | hm)
            · exact hexs q (List.mem_cons_of_mem _ hq) hm
            · simp only [dictKeys, List.map_cons, List.map_nil,
                List.mem_singleton] at hm
              exact hsnd.1 (hm ▸ List.mem_map_of_mem Prod.snd hq)

/-- Looking each key of a duplicate-free key list up in its own zip recovers
the values. -/
theorem map_get_zip (ks : List String) :
    ∀ (vs : List Value), ks.Nodup → vs.length = ks.length →
      ks.map (fun k => dictGet? ((ks.zip vs : Record)) k) = vs.map some := by
  induction ks with
  | nil =>
      intro vs _ hlen
      cases vs with
      | nil => rfl
      | cons v vs => simp at hlen
  | cons k ks ih =>
      intro vs hnd hlen
      cases vs with
      | nil => simp at hlen
      | cons v vs =>
          simp only [List.nodup_cons] at hnd
          simp only [List.zip_cons_cons, List.map_cons]
          congr 1
          · simp [dictGet?]
          · rw [show (vs.map some) = ks.map (fun k₂ => dictGet? ((ks.zip vs : Record)) k₂)
                from (ih vs hnd.2 (by simpa using hlen)).symm]
            apply List.map_congr_left
            intro k₂ hk₂
            have hne : k ≠ k₂ := fun he => hnd.1 (he ▸ hk₂)
            simp [dictGet?, hne]

/-- Corresponding positions of the old-key zip and the new-key zip hold the
same value. -/
theorem zip_get_corr (m : List (String × String)) :
    ∀ (vs : List Value) (p : String × String), p ∈ m →
      (m.map Prod.fst).Nodup → (m.map Prod.snd).Nodup →
      dictGet? (((m.map Prod.fst).zip vs : Record)) p.1 =
        dictGet? (((m.map Prod.snd).zip vs : Record)) p.2 := by
  induction m with
  | nil => intro vs p hp _ _; simp at hp
  | cons q m ih =>
      intro vs p hp hfst hsnd
      simp only [List.map_cons, List.nodup_cons] at hfst hsnd
      cases vs with
      | nil => simp [dictGet?]
      | cons v vs =>
          simp only [List.map_cons, List.zip_cons_cons]
          rcases List.mem_cons.mp hp with rfl | hp₂
          · simp [dictGet?]
          · have hne1 : q.1 ≠ p.1 := by
              intro he
              exact hfst.1 (he ▸ List.mem_map_of_mem Prod.fst hp₂)
            have hne2 : q.2 ≠ p.2 := by
              intro he
              exact hsnd.1 (he ▸ List.mem_map_of_mem Prod.snd hp₂)
            simp only [dictGet?, if_neg hne1, if_neg hne2]
            exact ih vs p hp₂ hfst.2 hsnd.2

/-- Round trip of one cell through the codec. -/
theorem decode_encode_cell (lists : List String) (listDelim : Char)
    (ext : String) (v : Value) (h : cell_ok lists listDelim ext v) :
    decode_cell (ext ∈ lists) listDelim (encode_cell listDelim (some v)) = v := by
  cases v with
  | str s =>
      unfold cell_ok at h
      simp [decode_cell, encode_cell, h]
  | vlist l =>
      obtain ⟨hmem, hne, hitems⟩ := h
      cases hl : l with
      | nil => simp [decode_cell, encode_cell, joinString, hmem, List.intercalate]
      | cons s₀ ls =>
          subst hl
          have hjd : (joinString listDelim (s₀ :: ls)).data =
              [listDelim].intercalate ((s₀ :: ls).map String.data) := rfl
          have hsplit : ([listDelim].intercalate ((s₀ :: ls).map String.data)).splitOn
              listDelim = (s₀ :: ls).map String.data :=
            List.splitOn_intercalate _ _
              (by
                intro cs hcs
                obtain ⟨t, ht, rfl⟩ := List.mem_map.mp hcs
                exact hitems t ht)
              (by simp)
          have hnonempty : joinString listDelim (s₀ :: ls) ≠ "" := by
            intro he
            have hdata : [listDelim].intercalate ((s₀ :: ls).map String.data) = [] := by
              rw [← hjd, he]
            rw [hdata] at hsplit
            have : ([] : List Char).splitOn listDelim = [[]] := rfl
            rw [this] at hsplit
            cases ls with
            | nil =>
                simp only [List.map_cons, List.map_nil] at hsplit
                have hs₀ : s₀.data = [] := by
                  have := hsplit.symm
                  injection this
                have : s₀ = "" := by
                  cases s₀ with
                  | mk d => cases hs₀; rfl
                exact hne (by rw [this])
            | cons s₁ ls₂ => simp at hsplit
          simp only [decode_cell, hmem, if_pos, encode_cell, if_neg hnonempty]
          rw [show splitString listDelim (joinString listDelim (s₀ :: ls)) =
              (((s₀ :: ls).map String.data).map String.mk) by
            unfold splitString
            rw [hjd, hsplit]]
          rw [List.map_map,
            show (String.mk ∘ String.data) = id from funext (fun s => rfl),
            List.map_id]
          simp

/-- The loader's row fold with pairwise-distinct keys rebuilds the row list
as a dictionary. -/
theorem csv_build_fold {ρ : Type} (g : ρ → Record) (kf : Record → String)
    (rows : List ρ) :
    ∀ acc : Dict Record,
      (rows.map (fun r => kf (g r))).Nodup →
      (∀ r ∈ rows, kf (g r) ∉ dictKeys acc) →
      rows.foldl (fun d r => dictInsert d (kf (g r)) (g r)) acc =
        acc ++ rows.map (fun r => (kf (g r), g r)) := by
  induction rows with
  | nil => intro acc _ _; simp
  | cons r rows ih =>
      intro acc hnd hfr
      simp only [List.map_cons, List.nodup_cons] at hnd
      simp only [List.foldl_cons]
      rw [dictInsert_append_of_not_mem _ _ _ (hfr r (List.mem_cons_self r rows))]
      rw [ih _ hnd.2 ?fresh]
      · simp
      case fresh =>
        intro r₂ hr₂
        rw [dictKeys_append]
        simp only [List.mem_append]
        rintro (hm | hm)
        · exact hfr r₂ (List.mem_cons_of_mem r hr₂) hm
        · simp only [dictKeys, List.map_cons, List.map_nil, List.mem_singleton] at hm
          exact hnd.1 (hm ▸ List.mem_map_of_mem (fun r => kf (g r)) hr₂)

/-- Evaluating the spec-modelled parser on a file whose header passes the
schema check. -/
theorem csv_file_to_dict_mk (header : String) (rows : List (List String))
    (key expected : String) (lists : List String) (delim listDelim : Char)
    (hh : header = expected) :
    csv_file_to_dict ⟨header, rows⟩ key expected lists delim listDelim =
      some (rows.foldl (fun d row =>
        dictInsert d
          (match dictGet? (((splitString delim header).zip row).map
              (fun p => (p.1, decode_cell (p.1 ∈ lists) listDelim p.2))) key with
            | some (.str s) => s
            | _ => "")
          (((splitString delim header).zip row).map
            (fun p => (p.1, decode_cell (p.1 ∈ lists) listDelim p.2)))) []) := by
  subst hh
  simp only [csv_file_to_dict]
  split
  · rfl
  · next h => exact absurd trivial h

/-- One record through the serializer and back: relabeling to external
columns, cell encoding, cell decoding and relabeling back are all inverted. -/
theorem roundtrip_record (meta : Metadata) (listDelim : Char) (vs : List Value)
    (hS2 : (meta.fields.map Prod.fst).Nodup)
    (hS3 : (meta.fields.map Prod.snd).Nodup)
    (hS4 : ∀ p ∈ meta.fields, ∀ q ∈ meta.fields, p.1 ≠ q.2)
    (hlen : vs.length = meta.fields.length)
    (hok : ∀ q ∈ (meta.fields.map Prod.fst).zip vs,
      cell_ok meta.list_columns listDelim q.1 q.2) :
    relabel_inner (invert_dict meta.fields)
        (((meta.fields.map Prod.snd).zip vs : Record)) =
      (meta.fields.map Prod.fst).zip vs ∧
    (((meta.fields.map Prod.fst).zip
        ((meta.fields.map Prod.fst).map (fun c =>
          encode_cell listDelim
            (dictGet? (((meta.fields.map Prod.fst).zip vs : Record)) c)))).map
      (fun p => (p.1, decode_cell (p.1 ∈ meta.list_columns) listDelim p.2))) =
      (meta.fields.map Prod.fst).zip vs ∧
    relabel_inner meta.fields (((meta.fields.map Prod.fst).zip vs : Record)) =
      (meta.fields.map Prod.snd).zip vs := by
  have hswapfst : (meta.fields.map Prod.swap).map Prod.fst =
      meta.fields.map Prod.snd := by
    rw [List.map_map]; rfl
  have hswapsnd : (meta.fields.map Prod.swap).map Prod.snd =
      meta.fields.map Prod.fst := by
    rw [List.map_map]; rfl
  refine ⟨?_, ?_, ?_⟩
  · -- output-side relabel
    rw [invert_dict_eq_map _ hS3]
    have h := relabel_inner_zip (meta.fields.map Prod.swap) vs []
      (by rw [List.length_map]; exact hlen)
      (by rw [hswapfst]; exact hS3)
      (by rw [hswapsnd]; exact hS2)
      (by
        intro p hp q hq
        obtain ⟨p₀, hp₀, rfl⟩ := List.mem_map.mp hp
        obtain ⟨q₀, hq₀, rfl⟩ := List.mem_map.mp hq
        exact Ne.symm (hS4 q₀ hq₀ p₀ hp₀))
      (by intro p _; simp [dictKeys])
      (by intro p _; simp [dictKeys])
    rw [hswapfst, hswapsnd] at h
    simpa using h
  · -- cell round trip of the row
    have h1 : (meta.fields.map Prod.fst).map (fun c =>
        encode_cell listDelim
          (dictGet? (((meta.fields.map Prod.fst).zip vs : Record)) c)) =
        vs.map (fun v => encode_cell listDelim (some v)) := by
      rw [show (fun c => encode_cell listDelim
            (dictGet? (((meta.fields.map Prod.fst).zip vs : Record)) c)) =
          (fun o => encode_cell listDelim o) ∘
            (fun c => dictGet? (((meta.fields.map Prod.fst).zip vs : Record)) c)
          from rfl]
      rw [← List.map_map, map_get_zip _ _ hS2 (by rw [List.length_map]; exact hlen),
        List.map_map]
      rfl
    rw [h1, List.zip_map_right, List.map_map]
    have h2 : ∀ q ∈ (meta.fields.map Prod.fst).zip vs,
        ((fun p => (p.1, decode_cell (p.1 ∈ meta.list_columns) listDelim p.2)) ∘
          Prod.map id (fun v => encode_cell listDelim (some v))) q = q := by
      intro q hq
      obtain ⟨c, v⟩ := q
      simp only [Function.comp_apply, Prod.map_apply, id_eq]
      rw [decode_encode_cell _ _ _ _ (hok (c, v) hq)]
    rw [List.map_congr_left h2, List.map_id']
  · -- load-side relabel
    have h := relabel_inner_zip meta.fields vs [] hlen hS2 hS3 hS4
      (by intro p _; simp [dictKeys])
      (by intro p _; simp [dictKeys])
    simpa using h

/-- C8.  Spec-modelled codec: serializing a loader-shaped dataset with
`base_output_data` and re-loading it with `base_load_data` under the same
schema reproduces the dataset exactly; in particular the internal→external
relabeling followed by its inverse is the identity on every record. -/
theorem C8_round_trip (meta : Metadata) (delim listDelim : Char)
    (data : Dict Record)
    (hS1 : splitString delim (joinString delim (meta.fields.map Prod.fst)) =
      meta.fields.map Prod.fst)
    (hS2 : (meta.fields.map Prod.fst).Nodup)
    (hS3 : (meta.fields.map Prod.snd).Nodup)
    (hS4 : ∀ p ∈ meta.fields, ∀ q ∈ meta.fields, p.1 ≠ q.2)
    (hD0 : (dictKeys data).Nodup)
    (hshape : ∀ kv ∈ data, ∃ vs : List Value,
      kv.2 = (meta.fields.map Prod.snd).zip vs ∧
      vs.length = meta.fields.length ∧
      (∀ q ∈ (meta.fields.map Prod.fst).zip vs,
        cell_ok meta.list_columns listDelim q.1 q.2) ∧
      ∃ ki : String, (meta.key_column, ki) ∈ meta.fields ∧
        dictGet? kv.2 ki = some (.str kv.1)) :
    base_load_data (base_output_data data meta delim listDelim) meta delim listDelim =
      some data := by
  classical
  -- the serialized file
  have hout : base_output_data data meta delim listDelim =
      { header := joinString delim (meta.fields.map Prod.fst)
        rows := data.map (fun kv => (meta.fields.map Prod.fst).map (fun c =>
          encode_cell listDelim
            (dictGet? (relabel_inner (invert_dict meta.fields) kv.2) c))) } := by
    simp only [base_output_data, dict_to_csv_file, relabel_inner_dicts,
      List.map_map, hS1]
    rfl
  -- per-record external form and key
  have hrec : ∀ kv ∈ data,
      ((meta.fields.map Prod.fst).zip
        ((meta.fields.map Prod.fst).map (fun c =>
          encode_cell listDelim
            (dictGet? (relabel_inner (invert_dict meta.fields) kv.2) c)))).map
        (fun p => (p.1, decode_cell (p.1 ∈ meta.list_columns) listDelim p.2)) =
        relabel_inner (invert_dict meta.fields) kv.2 ∧
      (match dictGet? (relabel_inner (invert_dict meta.fields) kv.2)
          meta.key_column with
        | some (.str s) => s
        | _ => "") = kv.1 ∧
      relabel_inner meta.fields (relabel_inner (invert_dict meta.fields) kv.2) =
        kv.2 := by
    intro kv hkv
    obtain ⟨vs, hsh, hlen, hok, ki, hki, hkiv⟩ := hshape kv hkv
    obtain ⟨ha, hb, hc⟩ := roundtrip_record meta listDelim vs hS2 hS3 hS4 hlen hok
    have hext : relabel_inner (invert_dict meta.fields) kv.2 =
        (meta.fields.map Prod.fst).zip vs := by rw [hsh]; exact ha
    refine ⟨?_, ?_, ?_⟩
    · rw [hext]; exact hb
    · rw [hext]
      have hkey : dictGet? (((meta.fields.map Prod.fst).zip vs : Record))
          meta.key_column = some (.str kv.1) := by
        have hcorr := zip_get_corr meta.fields vs (meta.key_column, ki) hki hS2 hS3
        rw [hcorr]
        rw [hsh] at hkiv
        exact hkiv
      rw [hkey]
    · rw [hext, hc, hsh]
  -- rebuild the dictionary
  have hfold := csv_build_fold
    (fun kv : String × Record =>
      ((meta.fields.map Prod.fst).zip
        ((meta.fields.map Prod.fst).map (fun c =>
          encode_cell listDelim
            (dictGet? (relabel_inner (invert_dict meta.fields) kv.2) c)))).map
        (fun p => (p.1, decode_cell (p.1 ∈ meta.list_columns) listDelim p.2)))
    (fun record =>
      match dictGet? record meta.key_column with
      | some (.str s) => s
      | _ => "")
    data []
    (by
      have : (data.map (fun kv =>
          match dictGet? (((meta.fields.map Prod.fst).zip
            ((meta.fields.map Prod.fst).map (fun c =>
              encode_cell listDelim
                (dictGet? (relabel_inner (invert_dict meta.fields) kv.2) c)))).map
            (fun p => (p.1, decode_cell (p.1 ∈ meta.list_columns) listDelim p.2)))
            meta.key_column with
          | some (.str s) => s
          | _ => "")) = data.map Prod.fst := by
        apply List.map_congr_left
        intro kv hkv
        rw [(hrec kv hkv).1, (hrec kv hkv).2.1]
      rw [this]
      exact hD0)
    (by intro kv _; simp [dictKeys])
  have hfold₂ : data.foldl
      (fun d kv =>
        dictInsert d
          (match dictGet?
              (((meta.fields.map Prod.fst).zip
                ((meta.fields.map Prod.fst).map (fun c =>
                  encode_cell listDelim
                    (dictGet? (relabel_inner (invert_dict meta.fields) kv.2) c)))).map
                (fun p => (p.1, decode_cell (p.1 ∈ meta.list_columns) listDelim p.2)))
              meta.key_column with
            | some (.str s) => s
            | _ => "")
          (((meta.fields.map Prod.fst).zip
            ((meta.fields.map Prod.fst).map (fun c =>
              encode_cell listDelim
                (dictGet? (relabel_inner (invert_dict meta.fields) kv.2) c)))).map
            (fun p => (p.1, decode_cell (p.1 ∈ meta.list_columns) listDelim p.2)))) [] =
      data.map (fun kv => (kv.1, relabel_inner (invert_dict meta.fields) kv.2)) := by
    refine Eq.trans hfold ?_
    rw [List.nil_append]
    apply List.map_congr_left
    intro kv hkv
    obtain ⟨h1, h2, h3⟩ := hrec kv hkv
    simp only [h1, h2]
  -- loading the serialized file gives the external-form dictionary back
  have hload : csv_file_to_dict (base_output_data data meta delim listDelim)
      meta.key_column (joinString delim (meta.fields.map Prod.fst))
      meta.list_columns delim listDelim =
      some (data.map (fun kv =>
        (kv.1, relabel_inner (invert_dict meta.fields) kv.2))) := by
    rw [hout, csv_file_to_dict_mk _ _ _ _ _ _ _ rfl]
    congr 1
    simp only [hS1, List.foldl_map]
    exact hfold₂
  -- relabel the loaded records back to internal names
  simp only [base_load_data]
  rw [hload, Option.map_some']
  congr 1
  simp only [relabel_inner_dicts, List.map_map]
  have hid : ∀ kv ∈ data,
      ((fun kv : String × Record => (kv.1, relabel_inner meta.fields kv.2)) ∘
        (fun kv : String × Record =>
          (kv.1, relabel_inner (invert_dict meta.fields) kv.2))) kv = kv := by
    intro kv hkv
    obtain ⟨h1, h2, h3⟩ := hrec kv hkv
    simp only [Function.comp_apply]
    rw [h3]
  rw [List.map_congr_left hid, List.map_id']

/-- C9 witness: in `filesFull` the card key `"5"` exists on both sides; the
slot ends with the re-pointed secondary card and the error log is exactly the
main phase's log. -/
theorem C9_archive_collision_witness :
    ((dictKeys filesFull.dupe_archive_data).Nodup ∧
      dictGet? filesFull.dupe_archive_data "5" = some cardNew ∧
      dictContains filesFull.archive_data "5" = true) ∧
    dictGet? (merge_data filesFull "!").archive_data "5" =
      some (process_dupe_archive_entry cardNew
        (filesFull.dupe_data.foldl (merge_data_step "!")
          (init_merge_state filesFull)).duplicates) ∧
    (merge_data filesFull "!").errors =
      (filesFull.dupe_data.foldl (merge_data_step "!")
        (init_merge_state filesFull)).errors :=
  ⟨⟨by decide, by decide, by decide⟩,
   C9_archive_collision filesFull "!" "5" cardNew (by decide) (by decide)
     (by decide)⟩


/-- C8 witness: a one-card archive dataset survives serialize-then-reload
under the archive schema with the default delimiters. -/
theorem C8_round_trip_witness :
    (splitString DELIMITER (joinString DELIMITER
        (archive_metadata.fields.map Prod.fst)) =
      archive_metadata.fields.map Prod.fst ∧
     (archive_metadata.fields.map Prod.fst).Nodup ∧
     (archive_metadata.fields.map Prod.snd).Nodup ∧
     (dictKeys arcData).Nodup) ∧
    base_load_data
      (base_output_data arcData archive_metadata DELIMITER LIST_DELIMITER)
      archive_metadata DELIMITER LIST_DELIMITER = some arcData := by
  refine ⟨⟨by decide, by decide, by decide, by decide⟩, ?_⟩
  exact C8_round_trip archive_metadata DELIMITER LIST_DELIMITER arcData
    (by decide) (by decide) (by decide) (by decide) (by decide)
    (by
      intro kv hkv
      simp only [arcData, List.mem_singleton] at hkv
      subst hkv
      exact ⟨[.str "K1", .str "5", .str "EM", .vlist ["p1", "p2"]], rfl, rfl,
        by decide, "db_id", by decide, by decide⟩)

end SMVK
